import Mathlib

/-!
Verification of the tile-field animation engine of this repository.

The engine lives in two source variants:
  * `src/components/Experience.tsx` — pool-wrap variant with `hash2`,
    while-loop wrap correction, `Math.pow`-based inertia decay and
    ring-based ripple time constants;
  * the unnamed Experience component (`src/unnamed/part_000`) — manifest
    driven variant with `seed01`, `pickIdNoAdjRepeat`, `buildPool`,
    `wrapIfNeeded` and `computeTau`.

JS numbers are modelled as exact integers (`Int`/`Nat`, with `% 2^32`
where the code forces 32-bit wrap-around via `| 0`, `^`, `>>>`, `<<`)
and exact rationals (`ℚ`) for screen-space arithmetic.  IEEE-754
rounding of intermediate products above 2^53 is not modelled; every
property proved below is insensitive to that rounding (the final
`>>> 0` / `% m` steps bound the hash results regardless, and all
concrete inputs used in counterexamples are chosen so that the real
double-precision computation is exact as well).
-/

namespace TileEngine

/-! ### 32-bit helpers: JS `ToUint32` on exact integers -/

/-- Bit pattern (as a natural number below `2^32`) of a JS number after
`ToUint32`/`ToInt32` coercion; signed and unsigned views share this
pattern, and all arithmetic the hashes perform only depends on it
modulo `2^32`. -/
def toUint32 (x : Int) : Nat := (x.emod 4294967296).toNat

/-! ### Deterministic hashes

`hash2` from `src/components/Experience.tsx` (lines 8–16):
```js
function hash2(col, row, mod) {
  let x = col | 0; let y = row | 0;
  let h = x * 374761393 + y * 668265263;
  h = (h ^ (h >>> 13)) * 1274126177;
  h = h ^ (h >>> 16);
  h >>>= 0;
  return h % mod;
}
```
Each `^` / `>>>` coerces to 32 bits, so the computation is carried out
directly on the 32-bit patterns. -/
def hash2 (col row : Int) (m : Nat) : Nat :=
  let x := toUint32 col
  let y := toUint32 row
  let h0 := (x * 374761393 + y * 668265263) % 4294967296
  let h1 := (Nat.xor h0 (h0 >>> 13)) * 1274126177 % 4294967296
  let h2 := Nat.xor h1 (h1 >>> 16)
  h2 % m

/-- The 32-bit mixing core of `seed01` (`src/unnamed/part_000` lines
28–34, identically in `src/components/useRippleField.ts` lines 150–157):
```js
let h = ((a * 73856093) ^ (b * 19349663)) >>> 0
h ^= h << 13
h ^= h >>> 17
h ^= h << 5
return (h >>> 0) / 4294967295
```
This is the value `h >>> 0` before the final division. -/
def seedHash (a b : Int) : Nat :=
  let h0 := Nat.xor (toUint32 (a * 73856093)) (toUint32 (b * 19349663))
  let h1 := Nat.xor h0 ((h0 <<< 13) % 4294967296)
  let h2 := Nat.xor h1 (h1 >>> 17)
  Nat.xor h2 ((h2 <<< 5) % 4294967296)

/-- `seed01` itself: the 32-bit hash divided by `4294967295 = 2^32 - 1`
(note: *not* `2^32`). -/
def seed01 (a b : Int) : ℚ := (seedHash a b : ℚ) / 4294967295

lemma toUint32_lt (x : Int) : toUint32 x < 4294967296 := by
  unfold toUint32
  have h1 : x.emod 4294967296 < 4294967296 := Int.emod_lt_of_pos x (by norm_num)
  omega

lemma seedHash_lt (a b : Int) : seedHash a b < 4294967296 := by
  unfold seedHash
  have h32 : (4294967296 : Nat) = 2 ^ 32 := by norm_num
  have u1 := toUint32_lt (a * 73856093)
  have u2 := toUint32_lt (b * 19349663)
  have h0 : Nat.xor (toUint32 (a * 73856093)) (toUint32 (b * 19349663)) < 2 ^ 32 :=
    Nat.xor_lt_two_pow (h32 ▸ u1) (h32 ▸ u2)
  have h1 : Nat.xor (Nat.xor (toUint32 (a * 73856093)) (toUint32 (b * 19349663)))
      ((Nat.xor (toUint32 (a * 73856093)) (toUint32 (b * 19349663)) <<< 13) % 4294967296) < 2 ^ 32 :=
    Nat.xor_lt_two_pow h0 (h32 ▸ Nat.mod_lt _ (by norm_num))
  have h2 : Nat.xor (Nat.xor (Nat.xor (toUint32 (a * 73856093)) (toUint32 (b * 19349663)))
      ((Nat.xor (toUint32 (a * 73856093)) (toUint32 (b * 19349663)) <<< 13) % 4294967296))
      ((Nat.xor (Nat.xor (toUint32 (a * 73856093)) (toUint32 (b * 19349663)))
        ((Nat.xor (toUint32 (a * 73856093)) (toUint32 (b * 19349663)) <<< 13) % 4294967296)) >>> 17) < 2 ^ 32 :=
    Nat.xor_lt_two_pow h1 (by
      refine lt_of_le_of_lt ?_ h1
      rw [Nat.shiftRight_eq_div_pow]
      exact Nat.div_le_self _ _)
  exact h32 ▸ Nat.xor_lt_two_pow h2 (h32 ▸ Nat.mod_lt _ (by norm_num))

/-- C3: `hash2` is deterministic — identical integer inputs always
produce identical outputs, with no dependence on external state — and
for every positive modulus `m` its result lies in `[0, m)` (it is a
natural number, hence `≥ 0`). -/
theorem hash2_deterministic_and_in_range :
    (∀ (col col' row row' : Int) (m : Nat),
      col = col' → row = row' → hash2 col row m = hash2 col' row' m) ∧
    (∀ (col row : Int) (m : Nat), 0 < m → hash2 col row m < m) := by
  constructor
  · intro col col' row row' m hc hr
    rw [hc, hr]
  · intro col row m hm
    exact Nat.mod_lt _ hm

/-- Witness for C3 at a concrete input: `hash2 3 7 16` equals itself and
lies below the modulus `16`. -/
theorem hash2_deterministic_and_in_range_witness :
    (3 : Int) = 3 ∧ (7 : Int) = 7 ∧ 0 < 16 ∧
    hash2 3 7 16 = hash2 3 7 16 ∧ hash2 3 7 16 < 16 :=
  ⟨rfl, rfl, by decide,
    hash2_deterministic_and_in_range.1 3 3 7 7 16 rfl rfl,
    hash2_deterministic_and_in_range.2 3 7 16 (by decide)⟩

/-- C4 counterexample: `seed01` does *not* always return a value
strictly below `1`.  At `(a, b) = (4, 36809357)` the mixed 32-bit hash
is exactly `2^32 - 1 = 4294967295`, so the division by `4294967295`
returns exactly `1`.  (All intermediate products stay below `2^53`, so
the real IEEE-754 evaluation of the source is exact here too.) -/
theorem seed01_attains_one :
    seed01 4 36809357 = 1 ∧ ¬ (seed01 4 36809357 < 1) := by
  have h : seedHash 4 36809357 = 4294967295 := by decide
  unfold seed01
  rw [h]
  norm_num

/-- C4 (amended): `seed01` is deterministic and returns a value in the
*closed* unit interval `[0, 1]`; the upper endpoint `1` is attained
(division is by `2^32 - 1` while the hash ranges over `[0, 2^32)`), so
membership in the half-open `[0, 1)` fails exactly when the 32-bit hash
is `4294967295`. -/
theorem seed01_deterministic_and_in_closed_unit :
    (∀ (a a' b b' : Int), a = a' → b = b' → seed01 a b = seed01 a' b') ∧
    (∀ a b : Int, 0 ≤ seed01 a b ∧ seed01 a b ≤ 1) := by
  constructor
  · intro a a' b b' ha hb
    rw [ha, hb]
  · intro a b
    unfold seed01
    constructor
    · positivity
    · rw [div_le_one (by norm_num)]
      have h := seedHash_lt a b
      have : (seedHash a b : ℚ) ≤ 4294967295 := by
        exact_mod_cast Nat.le_of_lt_succ h
      linarith

/-- Witness for C4's amended theorem at a concrete input. -/
theorem seed01_deterministic_and_in_closed_unit_witness :
    (4 : Int) = 4 ∧ (36809357 : Int) = 36809357 ∧
    seed01 4 36809357 = seed01 4 36809357 ∧
    0 ≤ seed01 4 36809357 ∧ seed01 4 36809357 ≤ 1 :=
  ⟨rfl, rfl,
    seed01_deterministic_and_in_closed_unit.1 4 4 36809357 36809357 rfl rfl,
    (seed01_deterministic_and_in_closed_unit.2 4 36809357).1,
    (seed01_deterministic_and_in_closed_unit.2 4 36809357).2⟩

/-! ### Media pool: `pickIdNoAdjRepeat` (`src/unnamed/part_000` lines 454–466)

```js
function pickIdNoAdjRepeat(col, row, ids) {
  if (ids.length <= 1) return ids[0] ?? "00"
  const map = coordIdRef.current
  const L = map.get(keyOf(col - 1, row)); const R = map.get(keyOf(col + 1, row))
  const U = map.get(keyOf(col, row - 1)); const D = map.get(keyOf(col, row + 1))
  const bad = (id) => id === L || id === R || id === U || id === D
  let idx = Math.floor(seed01(col, row) * ids.length) % ids.length
  for (let k = 0; k < 18 && bad(ids[idx]); k++) idx = (idx + 1) % ids.length
  return ids[idx]
}
```
The occupancy map `coordIdRef` keyed by `keyOf(c,r) = "c,r"` (injective
on integer pairs) is modelled as a partial function on coordinates. -/

abbrev OccMap := Int × Int → Option String

/-- The `bad` predicate: candidate equals one of the four already
assigned orthogonal neighbors (a missing neighbor — JS `undefined` —
never equals a string candidate). -/
def badNeighbor (occ : OccMap) (col row : Int) (id : String) : Bool :=
  occ (col - 1, row) == some id || occ (col + 1, row) == some id ||
    occ (col, row - 1) == some id || occ (col, row + 1) == some id

/-- The probe loop `for (k = 0; k < 18 && bad(ids[idx]); k++)
idx = (idx + 1) % ids.length`, with the remaining attempt budget as
fuel.  Indices stay below `ids.length` throughout (proved below), so
the `getD` default is never consulted. -/
def probeIdx (ids : List String) (bad : String → Bool) : Nat → Nat → Nat
  | 0, idx => idx
  | fuel + 1, idx =>
    if bad (ids.getD idx "") then probeIdx ids bad fuel ((idx + 1) % ids.length) else idx

/-- `Math.floor(seed01(col,row) * ids.length) % ids.length` — the hashed
starting index of the probe. -/
def startIdx (col row : Int) (len : Nat) : Nat :=
  (⌊seed01 col row * (len : ℚ)⌋).toNat % len

def pickIdNoAdjRepeat (occ : OccMap) (col row : Int) (ids : List String) : String :=
  if ids.length ≤ 1 then ids.getD 0 "00"
  else ids.getD (probeIdx ids (badNeighbor occ col row) 18 (startIdx col row ids.length)) ""

/-- Exact-arithmetic evaluation of the hashed starting index (used to
run the definitions on concrete inputs). -/
lemma startIdx_eval (col row : Int) (len : Nat) :
    startIdx col row len = seedHash col row * len / 4294967295 % len := by
  unfold startIdx seed01
  rw [show (4294967295 : ℚ) = ((4294967295 : ℕ) : ℚ) from by norm_num,
    div_mul_eq_mul_div, ← Nat.cast_mul, Int.floor_toNat, Nat.floor_div_nat,
    Nat.floor_natCast]

lemma startIdx_lt (col row : Int) (len : Nat) (h : 0 < len) :
    startIdx col row len < len :=
  Nat.mod_lt _ h

lemma probeIdx_zero (ids : List String) (bad : String → Bool) (idx : Nat) :
    probeIdx ids bad 0 idx = idx := rfl

lemma probeIdx_succ (ids : List String) (bad : String → Bool) (fuel idx : Nat) :
    probeIdx ids bad (fuel + 1) idx =
      if bad (ids.getD idx "") = true then probeIdx ids bad fuel ((idx + 1) % ids.length)
      else idx := rfl

lemma probeIdx_lt (ids : List String) (bad : String → Bool) :
    ∀ (fuel idx : Nat), idx < ids.length → probeIdx ids bad fuel idx < ids.length := by
  intro fuel
  induction fuel with
  | zero => intro idx h; exact h
  | succ fuel ih =>
    intro idx h
    rw [probeIdx_succ]
    split
    · exact ih _ (Nat.mod_lt _ (by omega))
    · exact h

/-- Structure of the probe loop: it returns the candidate at offset `j`
from the start for some `j ≤ fuel`, every earlier offset was a bad
candidate, and if the budget was not exhausted the returned candidate
is good. -/
lemma probeIdx_spec (ids : List String) (bad : String → Bool) :
    ∀ (fuel idx : Nat), idx < ids.length →
      ∃ j ≤ fuel,
        probeIdx ids bad fuel idx = (idx + j) % ids.length ∧
        (∀ j' < j, bad (ids.getD ((idx + j') % ids.length) "") = true) ∧
        (j < fuel → bad (ids.getD (probeIdx ids bad fuel idx) "") = false) := by
  intro fuel
  induction fuel with
  | zero =>
    intro idx h
    exact ⟨0, le_refl 0, by rw [probeIdx_zero, Nat.add_zero, Nat.mod_eq_of_lt h],
      by omega, by omega⟩
  | succ fuel ih =>
    intro idx h
    have hlen : 0 < ids.length := by omega
    by_cases hb : bad (ids.getD idx "") = true
    · have hstep : probeIdx ids bad (fuel + 1) idx = probeIdx ids bad fuel ((idx + 1) % ids.length) := by
        rw [probeIdx_succ, if_pos hb]
      obtain ⟨j, hj, heq, hpre, hlast⟩ := ih ((idx + 1) % ids.length) (Nat.mod_lt _ hlen)
      refine ⟨j + 1, by omega, ?_, ?_, ?_⟩
      · rw [hstep, heq, Nat.mod_add_mod]
        congr 1
        omega
      · intro j' hj'
        cases j' with
        | zero => simpa [Nat.mod_eq_of_lt h] using hb
        | succ k =>
          have := hpre k (by omega)
          rwa [Nat.mod_add_mod, show idx + 1 + k = idx + (k + 1) from by omega] at this
      · intro hlt
        rw [hstep]
        exact hlast (by omega)
    · refine ⟨0, by omega, ?_, by omega, ?_⟩
      · rw [probeIdx_succ, if_neg hb, Nat.add_zero, Nat.mod_eq_of_lt h]
      · intro _
        rw [probeIdx_succ, if_neg hb]
        simpa using hb

/-- If some offset `j ≤ fuel` from the start holds a good candidate,
the probe returns a good candidate (even when the good offset is the
final, unchecked one: the loop then stops exactly there). -/
lemma probeIdx_good (ids : List String) (bad : String → Bool) :
    ∀ (fuel idx : Nat), idx < ids.length →
      (∃ j ≤ fuel, bad (ids.getD ((idx + j) % ids.length) "") = false) →
      bad (ids.getD (probeIdx ids bad fuel idx) "") = false := by
  intro fuel
  induction fuel with
  | zero =>
    intro idx h hex
    obtain ⟨j, hj, hgood⟩ := hex
    interval_cases j
    rw [Nat.add_zero, Nat.mod_eq_of_lt h] at hgood
    rw [probeIdx_zero]
    exact hgood
  | succ fuel ih =>
    intro idx h hex
    have hlen : 0 < ids.length := by omega
    by_cases hb : bad (ids.getD idx "") = true
    · have hstep : probeIdx ids bad (fuel + 1) idx = probeIdx ids bad fuel ((idx + 1) % ids.length) := by
        rw [probeIdx_succ, if_pos hb]
      rw [hstep]
      obtain ⟨j, hj, hgood⟩ := hex
      cases j with
      | zero =>
        rw [Nat.add_zero, Nat.mod_eq_of_lt h] at hgood
        rw [hgood] at hb
        cases hb
      | succ k =>
        refine ih _ (Nat.mod_lt _ hlen) ⟨k, by omega, ?_⟩
        rwa [Nat.mod_add_mod, show idx + 1 + k = idx + (k + 1) from by omega]
    · rw [probeIdx_succ, if_neg hb]
      simpa using hb

/-- C10: `pickIdNoAdjRepeat` is total and in-bounds: it returns the
sentinel `"00"` for an empty catalog instead of failing, and for a
non-empty catalog it always returns an element of the catalog (the
`% ids.length` keeps the start index in range even when `seed01`
attains the upper boundary of its output). -/
theorem pick_total_and_in_catalog :
    (∀ (occ : OccMap) (col row : Int), pickIdNoAdjRepeat occ col row [] = "00") ∧
    (∀ (occ : OccMap) (col row : Int) (ids : List String),
      ids ≠ [] → pickIdNoAdjRepeat occ col row ids ∈ ids) := by
  constructor
  · intro occ col row
    rfl
  · intro occ col row ids hne
    have hpos : 0 < ids.length := List.length_pos.mpr hne
    unfold pickIdNoAdjRepeat
    split
    · rw [List.getD_eq_getElem _ _ hpos]
      exact List.getElem_mem _
    · have hlt := probeIdx_lt ids (badNeighbor occ col row) 18
        (startIdx col row ids.length) (startIdx_lt col row ids.length hpos)
      rw [List.getD_eq_getElem _ _ hlt]
      exact List.getElem_mem _

/-- Witness for C10 on concrete catalogs. -/
theorem pick_total_and_in_catalog_witness :
    pickIdNoAdjRepeat (fun _ => none) 0 0 [] = "00" ∧
    (["a", "b", "c"] : List String) ≠ [] ∧
    pickIdNoAdjRepeat (fun _ => none) 0 0 ["a", "b", "c"] ∈ (["a", "b", "c"] : List String) :=
  ⟨pick_total_and_in_catalog.1 (fun _ => none) 0 0,
    by decide,
    pick_total_and_in_catalog.2 (fun _ => none) 0 0 ["a", "b", "c"] (by decide)⟩

/-- C2: behavior of `pickIdNoAdjRepeat`.  With a single-element catalog
the sole element is returned without probing.  Otherwise the function
starts at the hashed index and linearly probes (wrapping modulo the
catalog length, at most 18 steps past the start): it returns the first
probed candidate that differs from all four already-assigned orthogonal
neighbors, or the candidate 18 past the start when the budget is
exhausted; hence whenever any offset `j ≤ 18` from the start holds a
conflict-free candidate, the returned identity differs from all four
orthogonal neighbors. -/
theorem pick_probe_spec :
    (∀ (occ : OccMap) (col row : Int) (x : String),
      pickIdNoAdjRepeat occ col row [x] = x) ∧
    (∀ (occ : OccMap) (col row : Int) (ids : List String), 2 ≤ ids.length →
      ∃ j ≤ 18,
        pickIdNoAdjRepeat occ col row ids =
          ids.getD ((startIdx col row ids.length + j) % ids.length) "" ∧
        (∀ j' < j,
          badNeighbor occ col row
            (ids.getD ((startIdx col row ids.length + j') % ids.length) "") = true) ∧
        (j < 18 → badNeighbor occ col row (pickIdNoAdjRepeat occ col row ids) = false)) ∧
    (∀ (occ : OccMap) (col row : Int) (ids : List String), 2 ≤ ids.length →
      (∃ j ≤ 18,
        badNeighbor occ col row
          (ids.getD ((startIdx col row ids.length + j) % ids.length) "") = false) →
      badNeighbor occ col row (pickIdNoAdjRepeat occ col row ids) = false) := by
  refine ⟨?_, ?_, ?_⟩
  · intro occ col row x
    rfl
  · intro occ col row ids h2
    have hstart := startIdx_lt col row ids.length (by omega)
    obtain ⟨j, hj, heq, hpre, hlast⟩ :=
      probeIdx_spec ids (badNeighbor occ col row) 18 (startIdx col row ids.length) hstart
    have hsel : pickIdNoAdjRepeat occ col row ids =
        ids.getD (probeIdx ids (badNeighbor occ col row) 18 (startIdx col row ids.length)) "" := by
      unfold pickIdNoAdjRepeat
      rw [if_neg (by omega)]
    exact ⟨j, hj, by rw [hsel, heq], hpre, fun hlt => by rw [hsel]; exact hlast hlt⟩
  · intro occ col row ids h2 hex
    have hstart := startIdx_lt col row ids.length (by omega)
    have hsel : pickIdNoAdjRepeat occ col row ids =
        ids.getD (probeIdx ids (badNeighbor occ col row) 18 (startIdx col row ids.length)) "" := by
      unfold pickIdNoAdjRepeat
      rw [if_neg (by omega)]
    rw [hsel]
    exact probeIdx_good ids (badNeighbor occ col row) 18 (startIdx col row ids.length) hstart hex

/-- Witness for C2 on a concrete catalog with an empty occupancy map
(no neighbor is assigned, so offset `0` is already conflict-free). -/
theorem pick_probe_spec_witness :
    pickIdNoAdjRepeat (fun _ => none) 0 0 ["solo"] = "solo" ∧
    2 ≤ (["a", "b", "c"] : List String).length ∧
    (∃ j ≤ 18,
      pickIdNoAdjRepeat (fun _ => none) 0 0 ["a", "b", "c"] =
        (["a", "b", "c"] : List String).getD ((startIdx 0 0 3 + j) % 3) "" ∧
      (∀ j' < j,
        badNeighbor (fun _ => none) 0 0
          ((["a", "b", "c"] : List String).getD ((startIdx 0 0 3 + j') % 3) "") = true) ∧
      (j < 18 → badNeighbor (fun _ => none) 0 0
          (pickIdNoAdjRepeat (fun _ => none) 0 0 ["a", "b", "c"]) = false)) :=
  ⟨pick_probe_spec.1 (fun _ => none) 0 0 "solo",
    by decide,
    pick_probe_spec.2.1 (fun _ => none) 0 0 ["a", "b", "c"] (by decide)⟩

/-! ### Tile pool / virtual grid (`src/unnamed/part_000`)

Layout constants of that variant: `TILE = 130`, `GAP = 140`, so the
cell size `SPAN = 270`, and `WRAP_MARGIN = 2`, so the guard band is
`[-270*3, vw + 270*3] × [-270*3, vh + 270*3]`. -/

structure Tile where
  col : Int
  row : Int
  id : String
deriving DecidableEq

instance : Inhabited Tile := ⟨⟨0, 0, ""⟩⟩

def coordOf (t : Tile) : Int × Int := (t.col, t.row)

/-- `map.set(keyOf(c,r), v)` on the occupancy map. -/
def mapSet (m : OccMap) (k : Int × Int) (v : String) : OccMap :=
  fun c => if c = k then some v else m c

/-- `map.delete(keyOf(c,r))` on the occupancy map. -/
def mapDelete (m : OccMap) (k : Int × Int) : OccMap :=
  fun c => if c = k then none else m c

/-- The pool geometry fixed between rebuilds: `poolCols`, `poolRows`
and the viewport size. -/
structure Config where
  cols : Int
  rows : Int
  vw : ℚ
  vh : ℚ

structure EngState where
  tiles : List Tile
  occ : OccMap

/-- `wrapIfNeeded` (`src/unnamed/part_000` lines 662–706): compare the
base position `(col*SPAN + panView.x, row*SPAN + panView.y)` against
the guard band; shift each axis **once** by the pool extent if outside;
if anything moved, delete the old occupancy entry, pick a fresh id for
the new coordinate (against the map with the old entry removed), insert
the new entry, and store the new id on the tile. -/
def wrapIfNeeded (cfg : Config) (ids : List String) (pan : ℚ × ℚ) (occ : OccMap) (t : Tile) :
    Tile × OccMap :=
  let bx : ℚ := (t.col : ℚ) * 270 + pan.1
  let bY : ℚ := (t.row : ℚ) * 270 + pan.2
  let lb : ℚ := -(270 * 3)
  let rb : ℚ := cfg.vw + 270 * 3
  let tb : ℚ := -(270 * 3)
  let bb : ℚ := cfg.vh + 270 * 3
  let col' := if bx < lb then t.col + cfg.cols else if rb < bx then t.col - cfg.cols else t.col
  let row' := if bY < tb then t.row + cfg.rows else if bb < bY then t.row - cfg.rows else t.row
  if bx < lb ∨ rb < bx ∨ bY < tb ∨ bb < bY then
    let occ1 := mapDelete occ (t.col, t.row)
    let newId := pickIdNoAdjRepeat occ1 col' row' ids
    (⟨col', row', newId⟩, mapSet occ1 (col', row') newId)
  else (t, occ)

/-- The per-frame tile loop of `tick` (lines 1205–1206): apply
`wrapIfNeeded` to each slot in order, threading the occupancy map. -/
def advanceTiles (cfg : Config) (ids : List String) (pan : ℚ × ℚ) :
    List Tile → OccMap → List Tile × OccMap
  | [], occ => ([], occ)
  | t :: ts, occ =>
    let p := wrapIfNeeded cfg ids pan occ t
    let rest := advanceTiles cfg ids pan ts p.2
    (p.1 :: rest.1, rest.2)

/-- One frame boundary to the next, for a given `panView` value. -/
def advance (cfg : Config) (ids : List String) (s : EngState) (pan : ℚ × ℚ) : EngState :=
  let r := advanceTiles cfg ids pan s.tiles s.occ
  ⟨r.1, r.2⟩

/-- A whole simulated pan-offset sequence, one `advance` per frame. -/
def runPans (cfg : Config) (ids : List String) : EngState → List (ℚ × ℚ) → EngState
  | s, [] => s
  | s, p :: ps => runPans cfg ids (advance cfg ids s p) ps

/-! `buildPool` (`src/unnamed/part_000` lines 582–631). -/

/-- The double seeding loop of `buildPool`: row-major coordinates
`(sc + c, sr + r)` for `r < rows`, `c < cols`. -/
def buildCoords (cols rows : Nat) (sc sr : Int) : List (Int × Int) :=
  (List.range rows).flatMap fun (r : Nat) =>
    (List.range cols).map fun (c : Nat) => (sc + (c : Int), sr + (r : Int))

/-- Seed the tiles: pick an id per coordinate (against the map built so
far) and insert it into the occupancy map. -/
def seedTiles (ids : List String) : List (Int × Int) → OccMap → List Tile × OccMap
  | [], occ => ([], occ)
  | c :: cs, occ =>
    let id := pickIdNoAdjRepeat occ c.1 c.2 ids
    let rest := seedTiles ids cs (mapSet occ c id)
    (⟨c.1, c.2, id⟩ :: rest.1, rest.2)

/-- The hero swap at the end of `buildPool` (lines 612–617): move the
tile at coordinate `(0,0)` to slot 0. -/
def heroSwap (ts : List Tile) : List Tile :=
  match ts.findIdx? (fun t => t.col == 0 && t.row == 0) with
  | some i => if 0 < i then (ts.set 0 (ts.getD i default)).set i (ts.getD 0 default) else ts
  | none => ts

def buildConfig (vw vh : ℚ) : Config :=
  ⟨⌈vw / 270⌉ + 6, ⌈vh / 270⌉ + 6, vw, vh⟩

/-- `buildPool(vw, vh, ids)`: `cols = ceil(vw/SPAN) + WRAP_MARGIN*2 + 2`
(similarly rows), start corner `(-floor(cols/2), -floor(rows/2))`, then
seed all coordinates row-major into a fresh map and hero-swap. -/
def buildPool (vw vh : ℚ) (ids : List String) : Config × EngState :=
  let cfg := buildConfig vw vh
  let colsN := cfg.cols.toNat
  let rowsN := cfg.rows.toNat
  let sc : Int := -((colsN / 2 : Nat) : Int)
  let sr : Int := -((rowsN / 2 : Nat) : Int)
  let seeded := seedTiles ids (buildCoords colsN rowsN sc sr) (fun _ => none)
  (cfg, ⟨heroSwap seeded.1, seeded.2⟩)

/-! ### Invariants of the pool -/

/-- Residue class of a tile modulo the pool extent. -/
def residue (cfg : Config) (t : Tile) : Int × Int :=
  (t.col % cfg.cols, t.row % cfg.rows)

/-- Residue classes of all slots are pairwise distinct. -/
def ResDistinct (cfg : Config) (ts : List Tile) : Prop :=
  (ts.map (residue cfg)).Nodup

/-- The occupancy map is exactly the graph of the current tile
assignment: each slot's coordinate maps to its id, and unoccupied
coordinates are absent. -/
def OccMatches (occ : OccMap) (ts : List Tile) : Prop :=
  (∀ t ∈ ts, occ (coordOf t) = some t.id) ∧
    (∀ c, (∀ t ∈ ts, coordOf t ≠ c) → occ c = none)

def coordsOf (s : EngState) : List (Int × Int) := s.tiles.map coordOf

/-- A pan sequence along which no frame wraps any slot. -/
def NoWrapRun (cfg : Config) (ids : List String) : EngState → List (ℚ × ℚ) → Prop
  | _, [] => True
  | s, p :: ps =>
    coordsOf (advance cfg ids s p) = coordsOf s ∧ NoWrapRun cfg ids (advance cfg ids s p) ps

/-! ### Per-slot wrap step: case analysis -/

/-- `wrapIfNeeded` either leaves the slot and the map untouched, or
shifts each axis by `0` or `±1` pool extents (not both zero), deletes
the old coordinate's entry and inserts the new coordinate's fresh id. -/
lemma wrapIfNeeded_cases (cfg : Config) (ids : List String) (pan : ℚ × ℚ) (occ : OccMap) (t : Tile) :
    wrapIfNeeded cfg ids pan occ t = (t, occ) ∨
    ∃ a b : Int, (a = 0 ∨ a = 1 ∨ a = -1) ∧ (b = 0 ∨ b = 1 ∨ b = -1) ∧ ¬(a = 0 ∧ b = 0) ∧
      (wrapIfNeeded cfg ids pan occ t).1.col = t.col + a * cfg.cols ∧
      (wrapIfNeeded cfg ids pan occ t).1.row = t.row + b * cfg.rows ∧
      (wrapIfNeeded cfg ids pan occ t).2 =
        mapSet (mapDelete occ (coordOf t)) (coordOf (wrapIfNeeded cfg ids pan occ t).1)
          (wrapIfNeeded cfg ids pan occ t).1.id := by
  by_cases h1 : (t.col : ℚ) * 270 + pan.1 < -(270 * 3)
  · right
    by_cases h3 : (t.row : ℚ) * 270 + pan.2 < -(270 * 3)
    · exact ⟨1, 1, by norm_num, by norm_num, by norm_num,
        by simp [wrapIfNeeded, coordOf, h1, h3],
        by simp [wrapIfNeeded, coordOf, h1, h3],
        by simp [wrapIfNeeded, coordOf, h1, h3]⟩
    · by_cases h4 : cfg.vh + 270 * 3 < (t.row : ℚ) * 270 + pan.2
      · exact ⟨1, -1, by norm_num, by norm_num, by norm_num,
          by simp [wrapIfNeeded, coordOf, h1, h3, h4],
          by simp [wrapIfNeeded, coordOf, h1, h3, h4, sub_eq_add_neg],
          by simp [wrapIfNeeded, coordOf, h1, h3, h4]⟩
      · exact ⟨1, 0, by norm_num, by norm_num, by norm_num,
          by simp [wrapIfNeeded, coordOf, h1, h3, h4],
          by simp [wrapIfNeeded, coordOf, h1, h3, h4],
          by simp [wrapIfNeeded, coordOf, h1, h3, h4]⟩
  · by_cases h2 : cfg.vw + 270 * 3 < (t.col : ℚ) * 270 + pan.1
    · right
      by_cases h3 : (t.row : ℚ) * 270 + pan.2 < -(270 * 3)
      · exact ⟨-1, 1, by norm_num, by norm_num, by norm_num,
          by simp [wrapIfNeeded, coordOf, h1, h2, h3, sub_eq_add_neg],
          by simp [wrapIfNeeded, coordOf, h1, h2, h3],
          by simp [wrapIfNeeded, coordOf, h1, h2, h3]⟩
      · by_cases h4 : cfg.vh + 270 * 3 < (t.row : ℚ) * 270 + pan.2
        · exact ⟨-1, -1, by norm_num, by norm_num, by norm_num,
            by simp [wrapIfNeeded, coordOf, h1, h2, h3, h4, sub_eq_add_neg],
            by simp [wrapIfNeeded, coordOf, h1, h2, h3, h4, sub_eq_add_neg],
            by simp [wrapIfNeeded, coordOf, h1, h2, h3, h4]⟩
        · exact ⟨-1, 0, by norm_num, by norm_num, by norm_num,
            by simp [wrapIfNeeded, coordOf, h1, h2, h3, h4, sub_eq_add_neg],
            by simp [wrapIfNeeded, coordOf, h1, h2, h3, h4],
            by simp [wrapIfNeeded, coordOf, h1, h2, h3, h4]⟩
    · by_cases h3 : (t.row : ℚ) * 270 + pan.2 < -(270 * 3)
      · right
        exact ⟨0, 1, by norm_num, by norm_num, by norm_num,
          by simp [wrapIfNeeded, coordOf, h1, h2, h3],
          by simp [wrapIfNeeded, coordOf, h1, h2, h3],
          by simp [wrapIfNeeded, coordOf, h1, h2, h3]⟩
      · by_cases h4 : cfg.vh + 270 * 3 < (t.row : ℚ) * 270 + pan.2
        · right
          exact ⟨0, -1, by norm_num, by norm_num, by norm_num,
            by simp [wrapIfNeeded, coordOf, h1, h2, h3, h4],
            by simp [wrapIfNeeded, coordOf, h1, h2, h3, h4, sub_eq_add_neg],
            by simp [wrapIfNeeded, coordOf, h1, h2, h3, h4]⟩
        · left
          simp [wrapIfNeeded, h1, h2, h3, h4]

/-- `wrapIfNeeded` leaves the slot untouched when the base position is
inside the guard band. -/
lemma wrapIfNeeded_not_moved (cfg : Config) (ids : List String) (pan : ℚ × ℚ) (occ : OccMap)
    (t : Tile)
    (h1 : ¬ ((t.col : ℚ) * 270 + pan.1 < -(270 * 3)))
    (h2 : ¬ (cfg.vw + 270 * 3 < (t.col : ℚ) * 270 + pan.1))
    (h3 : ¬ ((t.row : ℚ) * 270 + pan.2 < -(270 * 3)))
    (h4 : ¬ (cfg.vh + 270 * 3 < (t.row : ℚ) * 270 + pan.2)) :
    wrapIfNeeded cfg ids pan occ t = (t, occ) := by
  simp [wrapIfNeeded, h1, h2, h3, h4]

/-! ### Pool invariant: residues persist and the map mirrors the slots -/

lemma residue_shift (cfg : Config) (t t' : Tile) (a b : Int)
    (hcol : t'.col = t.col + a * cfg.cols) (hrow : t'.row = t.row + b * cfg.rows) :
    residue cfg t' = residue cfg t := by
  simp [residue, hcol, hrow, Int.add_mul_emod_self]

lemma coord_eq_iff (t u : Tile) : coordOf t = coordOf u ↔ t.col = u.col ∧ t.row = u.row := by
  simp [coordOf]

lemma residue_congr (cfg : Config) (u v : Tile) (h : coordOf u = coordOf v) :
    residue cfg u = residue cfg v := by
  rw [coord_eq_iff] at h
  simp [residue, h.1, h.2]

lemma res_ne_of_nodup_middle (cfg : Config) (os ts : List Tile) (t : Tile)
    (h : ResDistinct cfg (os ++ t :: ts)) :
    ∀ u ∈ os ++ ts, residue cfg u ≠ residue cfg t := by
  unfold ResDistinct at h
  rw [List.map_append, List.map_cons] at h
  have h2 := List.nodup_middle.mp h
  rw [List.nodup_cons] at h2
  intro u hu heq
  apply h2.1
  rw [← List.map_append]
  exact List.mem_map.mpr ⟨u, hu, heq⟩

lemma append_cons_eq (os ts : List Tile) (t : Tile) : (os ++ [t]) ++ ts = os ++ t :: ts := by
  simp

/-- One wrap pass relates a slot's old and new state: shifts by exact
multiples of the pool extent per axis, and the id is untouched when the
coordinate is. -/
def ShiftRel (cfg : Config) (t t' : Tile) : Prop :=
  (∃ a : Int, t'.col = t.col + a * cfg.cols) ∧ (∃ b : Int, t'.row = t.row + b * cfg.rows) ∧
    ((t'.col = t.col ∧ t'.row = t.row) → t'.id = t.id)

lemma advanceTiles_nil (cfg : Config) (ids : List String) (pan : ℚ × ℚ) (occ : OccMap) :
    advanceTiles cfg ids pan [] occ = ([], occ) := rfl

lemma advanceTiles_cons (cfg : Config) (ids : List String) (pan : ℚ × ℚ) (t : Tile)
    (ts : List Tile) (occ : OccMap) :
    advanceTiles cfg ids pan (t :: ts) occ =
      ((wrapIfNeeded cfg ids pan occ t).1 ::
          (advanceTiles cfg ids pan ts (wrapIfNeeded cfg ids pan occ t).2).1,
        (advanceTiles cfg ids pan ts (wrapIfNeeded cfg ids pan occ t).2).2) := rfl

/-- Master invariant of one wrap pass, generalized over the
already-processed prefix `os` (whose coordinates the occupancy map also
holds while the pass walks the pool). -/
lemma advanceTiles_master (cfg : Config) (ids : List String) (pan : ℚ × ℚ)
    (hc : 0 < cfg.cols) (hr : 0 < cfg.rows) :
    ∀ (ts os : List Tile) (occ : OccMap),
      ResDistinct cfg (os ++ ts) → OccMatches occ (os ++ ts) →
      List.Forall₂ (ShiftRel cfg) ts (advanceTiles cfg ids pan ts occ).1 ∧
        ResDistinct cfg (os ++ (advanceTiles cfg ids pan ts occ).1) ∧
        OccMatches (advanceTiles cfg ids pan ts occ).2
          (os ++ (advanceTiles cfg ids pan ts occ).1) := by
  intro ts
  induction ts with
  | nil =>
    intro os occ hres hocc
    exact ⟨List.Forall₂.nil, hres, hocc⟩
  | cons t ts ih =>
    intro os occ hres hocc
    rw [advanceTiles_cons]
    rcases wrapIfNeeded_cases cfg ids pan occ t with hid | ⟨a, b, ha, hb, hab, hcol, hrow, hro⟩
    · rw [hid]
      have hres' : ResDistinct cfg ((os ++ [t]) ++ ts) := by rwa [append_cons_eq]
      have hocc' : OccMatches occ ((os ++ [t]) ++ ts) := by rwa [append_cons_eq]
      obtain ⟨F, R, O⟩ := ih (os ++ [t]) occ hres' hocc'
      refine ⟨List.Forall₂.cons ⟨⟨0, by ring⟩, ⟨0, by ring⟩, fun _ => rfl⟩ F, ?_, ?_⟩
      · rw [← append_cons_eq]
        exact R
      · rw [← append_cons_eq]
        exact O
    · set w := wrapIfNeeded cfg ids pan occ t with hw
      have hres_t : ∀ u ∈ os ++ ts, residue cfg u ≠ residue cfg t :=
        res_ne_of_nodup_middle cfg os ts t hres
      have hres1 : residue cfg w.1 = residue cfg t := residue_shift cfg t w.1 a b hcol hrow
      have hne_new : ∀ u ∈ os ++ ts, coordOf u ≠ coordOf w.1 := fun u hu heq =>
        hres_t u hu ((residue_congr cfg u w.1 heq).trans hres1)
      have hne_old : ∀ u ∈ os ++ ts, coordOf u ≠ coordOf t := fun u hu heq =>
        hres_t u hu (residue_congr cfg u t heq)
      have hnew_ne_old : coordOf w.1 ≠ coordOf t := by
        intro heq
        rw [coord_eq_iff] at heq
        obtain ⟨e1, e2⟩ := heq
        rw [hcol] at e1
        rw [hrow] at e2
        have ea : a * cfg.cols = 0 := by linarith
        have eb : b * cfg.rows = 0 := by linarith
        rcases mul_eq_zero.mp ea with ea0 | ec0
        · rcases mul_eq_zero.mp eb with eb0 | er0
          · exact hab ⟨ea0, eb0⟩
          · omega
        · omega
      have hoccA : ∀ u ∈ os ++ w.1 :: ts, w.2 (coordOf u) = some u.id := by
        intro u hu
        rw [List.mem_append, List.mem_cons] at hu
        rcases hu with hu | hu | hu
        · have hu' : u ∈ os ++ ts := List.mem_append.mpr (Or.inl hu)
          rw [hro]
          simp only [mapSet, mapDelete, if_neg (hne_new u hu'), if_neg (hne_old u hu')]
          exact hocc.1 u (by rw [List.mem_append]; exact Or.inl hu)
        · rw [hu, hro]
          simp [mapSet]
        · have hu' : u ∈ os ++ ts := List.mem_append.mpr (Or.inr hu)
          rw [hro]
          simp only [mapSet, mapDelete, if_neg (hne_new u hu'), if_neg (hne_old u hu')]
          exact hocc.1 u (by rw [List.mem_append, List.mem_cons]; exact Or.inr (Or.inr hu))
      have hoccB : ∀ c, (∀ u ∈ os ++ w.1 :: ts, coordOf u ≠ c) → w.2 c = none := by
        intro c hall
        have hcw : c ≠ coordOf w.1 :=
          Ne.symm (hall w.1 (by rw [List.mem_append, List.mem_cons]; exact Or.inr (Or.inl rfl)))
        rw [hro]
        by_cases hct : c = coordOf t
        · rw [hct]
          simp only [mapSet, mapDelete]
          rw [if_neg (fun h => hnew_ne_old (Eq.symm h))]
          simp
        · simp only [mapSet, mapDelete, if_neg hcw, if_neg hct]
          apply hocc.2
          intro u hu
          rw [List.mem_append, List.mem_cons] at hu
          rcases hu with hu | hu | hu
          · exact hall u (by rw [List.mem_append]; exact Or.inl hu)
          · rw [hu]
            exact fun h => hct h.symm
          · exact hall u (by rw [List.mem_append, List.mem_cons]; exact Or.inr (Or.inr hu))
      have hresw : ResDistinct cfg (os ++ w.1 :: ts) := by
        unfold ResDistinct at hres ⊢
        rw [List.map_append, List.map_cons] at hres ⊢
        rwa [hres1]
      obtain ⟨F, R, O⟩ := ih (os ++ [w.1]) w.2
        (by rw [append_cons_eq]; exact hresw) (by rw [append_cons_eq]; exact ⟨hoccA, hoccB⟩)
      refine ⟨List.Forall₂.cons ⟨⟨a, hcol⟩, ⟨b, hrow⟩, ?_⟩ F, ?_, ?_⟩
      · intro hEq
        exact absurd ((coord_eq_iff w.1 t).mpr hEq) hnew_ne_old
      · rw [← append_cons_eq]
        exact R
      · rw [← append_cons_eq]
        exact O

/-! ### Build: the seeded pool satisfies the invariant -/

lemma seedTiles_nil (ids : List String) (occ : OccMap) : seedTiles ids [] occ = ([], occ) := rfl

lemma seedTiles_cons (ids : List String) (c : Int × Int) (cs : List (Int × Int)) (occ : OccMap) :
    seedTiles ids (c :: cs) occ =
      (⟨c.1, c.2, pickIdNoAdjRepeat occ c.1 c.2 ids⟩ ::
          (seedTiles ids cs (mapSet occ c (pickIdNoAdjRepeat occ c.1 c.2 ids))).1,
        (seedTiles ids cs (mapSet occ c (pickIdNoAdjRepeat occ c.1 c.2 ids))).2) := rfl

lemma seedTiles_spec (ids : List String) :
    ∀ (cs : List (Int × Int)) (os : List Tile) (occ : OccMap),
      cs.Nodup → (∀ c ∈ cs, ∀ u ∈ os, coordOf u ≠ c) → OccMatches occ os →
      (seedTiles ids cs occ).1.map coordOf = cs ∧
        OccMatches (seedTiles ids cs occ).2 (os ++ (seedTiles ids cs occ).1) := by
  intro cs
  induction cs with
  | nil =>
    intro os occ _ _ hocc
    exact ⟨rfl, by rw [seedTiles_nil]; simpa using hocc⟩
  | cons c cs ih =>
    intro os occ hnd hfresh hocc
    rw [List.nodup_cons] at hnd
    rw [seedTiles_cons]
    set tc : Tile := ⟨c.1, c.2, pickIdNoAdjRepeat occ c.1 c.2 ids⟩ with htc
    have hcoordtc : coordOf tc = c := rfl
    have hocc1 : OccMatches (mapSet occ c tc.id) (os ++ [tc]) := by
      constructor
      · intro u hu
        rw [List.mem_append] at hu
        rcases hu with hu | hu
        · have hne : coordOf u ≠ c := hfresh c (List.mem_cons_self c cs) u hu
          simp only [mapSet, if_neg hne]
          exact hocc.1 u hu
        · rw [List.mem_singleton] at hu
          subst hu
          rw [hcoordtc]
          simp [mapSet]
      · intro c' hall
        have hc' : c' ≠ c := by
          have h1 := hall tc (by simp)
          rw [hcoordtc] at h1
          exact fun h => h1 h.symm
        simp only [mapSet, if_neg hc']
        apply hocc.2
        intro u hu
        exact hall u (by simp [hu])
    have hfresh1 : ∀ c' ∈ cs, ∀ u ∈ os ++ [tc], coordOf u ≠ c' := by
      intro c' hcmem u hu
      rw [List.mem_append] at hu
      rcases hu with hu | hu
      · exact hfresh c' (List.mem_cons_of_mem c hcmem) u hu
      · rw [List.mem_singleton] at hu
        subst hu
        rw [hcoordtc]
        intro h
        apply hnd.1
        rw [h]
        exact hcmem
    obtain ⟨hmap, hoccN⟩ := ih (os ++ [tc]) (mapSet occ c tc.id) hnd.2 hfresh1 hocc1
    refine ⟨?_, ?_⟩
    · rw [List.map_cons, hcoordtc, hmap]
    · rw [← append_cons_eq]
      exact hoccN

/-- Coordinates generated by the seeding double loop. -/
lemma mem_buildCoords (colsN rowsN : Nat) (sc sr : Int) (z : Int × Int) :
    z ∈ buildCoords colsN rowsN sc sr ↔
      ∃ r < rowsN, ∃ c < colsN, (sc + (c : Int), sr + (r : Int)) = z := by
  unfold buildCoords
  constructor
  · intro hz
    rw [List.mem_flatMap] at hz
    obtain ⟨r, hr, hz⟩ := hz
    rw [List.mem_range] at hr
    rw [List.mem_map] at hz
    obtain ⟨c, hc, hz⟩ := hz
    rw [List.mem_range] at hc
    exact ⟨r, hr, c, hc, hz⟩
  · rintro ⟨r, hr, c, hc, rfl⟩
    rw [List.mem_flatMap]
    exact ⟨r, List.mem_range.mpr hr, List.mem_map.mpr ⟨c, List.mem_range.mpr hc, rfl⟩⟩

lemma emod_add_inj (m x : Int) (i j : Nat)
    (hi : (i : Int) < m) (hj : (j : Int) < m)
    (h : (x + i) % m = (x + j) % m) : i = j := by
  have hd : m ∣ ((x + i) - (x + j)) :=
    Int.dvd_of_emod_eq_zero (Int.emod_eq_emod_iff_emod_sub_eq_zero.mp h)
  have he : ((x + i) - (x + j)) = (i : Int) - j := by ring
  rw [he] at hd
  have habs : |(i : Int) - j| < m := abs_lt.mpr (by constructor <;> omega)
  have h0 := Int.eq_zero_of_abs_lt_dvd hd habs
  omega

lemma buildCoords_nodup (colsN rowsN : Nat) (sc sr : Int) :
    (buildCoords colsN rowsN sc sr).Nodup := by
  unfold buildCoords
  rw [List.nodup_flatMap]
  constructor
  · intro r _
    refine List.Nodup.map_on ?_ (List.nodup_range _)
    intro x _ y _ hxy
    rw [Prod.mk.injEq] at hxy
    omega
  · rw [List.pairwise_iff_getElem]
    intro i j hi hj hij
    intro z hz1 hz2
    rw [List.mem_map] at hz1 hz2
    obtain ⟨x, _, hzx⟩ := hz1
    obtain ⟨y, _, hzy⟩ := hz2
    rw [← hzy, Prod.mk.injEq] at hzx
    rw [List.getElem_range, List.getElem_range] at hzx
    have : i = j := by omega
    omega

lemma buildCoords_res_nodup (colsN rowsN : Nat) (sc sr : Int) (cZ rZ : Int)
    (hcZ : cZ = (colsN : Int)) (hrZ : rZ = (rowsN : Int)) :
    ((buildCoords colsN rowsN sc sr).map (fun c => (c.1 % cZ, c.2 % rZ))).Nodup := by
  refine List.Nodup.map_on ?_ (buildCoords_nodup colsN rowsN sc sr)
  intro z1 hz1 z2 hz2 heq
  rw [mem_buildCoords] at hz1 hz2
  obtain ⟨r1, hr1, c1, hc1, hzc1⟩ := hz1
  obtain ⟨r2, hr2, c2, hc2, hzc2⟩ := hz2
  rw [← hzc1, ← hzc2] at heq ⊢
  rw [Prod.mk.injEq] at heq ⊢
  obtain ⟨e1, e2⟩ := heq
  have hcc : c1 = c2 := emod_add_inj cZ sc c1 c2 (by omega) (by omega) e1
  have hrr : r1 = r2 := emod_add_inj rZ sr r1 r2 (by omega) (by omega) e2
  exact ⟨by rw [hcc], by rw [hrr]⟩

/-- The hero swap permutes the slot list. -/
lemma set_set_swap_perm (l : List Tile) (i : Nat) (h0 : 0 < i) (hi : i < l.length) :
    ((l.set 0 (l.getD i default)).set i (l.getD 0 default)).Perm l := by
  cases l with
  | nil => simp at hi
  | cons t0 rest =>
    cases i with
    | zero => omega
    | succ k =>
      have hk : k < rest.length := by simpa using hi
      rw [List.getD_eq_getElem _ _ hi]
      have hget : (t0 :: rest)[k + 1] = rest[k] := rfl
      have hgd0 : (t0 :: rest).getD 0 default = t0 := rfl
      rw [hget, hgd0, List.set_cons_zero, List.set_cons_succ]
      rw [List.set_eq_take_cons_drop _ hk]
      have hsplit : rest.take k ++ rest[k] :: rest.drop (k + 1) = rest := by
        rw [← List.drop_eq_getElem_cons hk, List.take_append_drop]
      refine List.Perm.trans (List.Perm.cons _ List.perm_middle) ?_
      refine List.Perm.trans (List.Perm.swap _ _ _) ?_
      refine List.Perm.trans (List.Perm.cons _ List.perm_middle.symm) ?_
      rw [hsplit]

lemma heroSwap_perm (ts : List Tile) : (heroSwap ts).Perm ts := by
  unfold heroSwap
  split
  · rename_i i hfind
    split
    · rename_i h0
      have hi : i < ts.length := (List.findIdx?_eq_some_iff_findIdx_eq.mp hfind).1
      exact set_set_swap_perm ts i h0 hi
    · exact List.Perm.refl ts
  · exact List.Perm.refl ts

lemma built_inv (cfg : Config) (ids : List String) (colsN rowsN : Nat) (sc sr : Int)
    (hcZ : cfg.cols = (colsN : Int)) (hrZ : cfg.rows = (rowsN : Int)) :
    ResDistinct cfg (heroSwap (seedTiles ids (buildCoords colsN rowsN sc sr) (fun _ => none)).1) ∧
    OccMatches (seedTiles ids (buildCoords colsN rowsN sc sr) (fun _ => none)).2
      (heroSwap (seedTiles ids (buildCoords colsN rowsN sc sr) (fun _ => none)).1) ∧
    ((heroSwap (seedTiles ids (buildCoords colsN rowsN sc sr) (fun _ => none)).1).map
      coordOf).Perm (buildCoords colsN rowsN sc sr) := by
  have hresmap := buildCoords_res_nodup colsN rowsN sc sr cfg.cols cfg.rows hcZ hrZ
  have hnd : (buildCoords colsN rowsN sc sr).Nodup := buildCoords_nodup colsN rowsN sc sr
  obtain ⟨hmap, hocc⟩ := seedTiles_spec ids (buildCoords colsN rowsN sc sr) [] (fun _ => none)
    hnd (by intro c _ u hu; exact absurd hu (List.not_mem_nil u))
    ⟨fun t ht => absurd ht (List.not_mem_nil t), fun c _ => rfl⟩
  set tiles0 := (seedTiles ids (buildCoords colsN rowsN sc sr) (fun _ => none)).1 with ht0
  have hres0 : ResDistinct cfg tiles0 := by
    unfold ResDistinct
    have hcomp : tiles0.map (residue cfg) =
        (tiles0.map coordOf).map (fun c => (c.1 % cfg.cols, c.2 % cfg.rows)) := by
      rw [List.map_map]
      rfl
    rw [hcomp, hmap]
    exact hresmap
  have hperm := heroSwap_perm tiles0
  refine ⟨?_, ?_, ?_⟩
  · unfold ResDistinct
    exact (List.Perm.nodup_iff (List.Perm.map (residue cfg) hperm)).mpr hres0
  · rw [List.nil_append] at hocc
    exact ⟨fun t ht => hocc.1 t (hperm.mem_iff.mp ht),
      fun c hall => hocc.2 c (fun t ht => hall t (hperm.mem_iff.mpr ht))⟩
  · rw [← hmap]
    exact List.Perm.map coordOf hperm

lemma buildConfig_cols_pos (vw vh : ℚ) (hw : 0 ≤ vw) : 0 < (buildConfig vw vh).cols := by
  show 0 < ⌈vw / 270⌉ + 6
  have h := Int.ceil_nonneg (show (0 : ℚ) ≤ vw / 270 by positivity)
  omega

lemma buildConfig_rows_pos (vw vh : ℚ) (hh : 0 ≤ vh) : 0 < (buildConfig vw vh).rows := by
  show 0 < ⌈vh / 270⌉ + 6
  have h := Int.ceil_nonneg (show (0 : ℚ) ≤ vh / 270 by positivity)
  omega

/-- Invariant established by `buildPool`. -/
lemma buildPool_inv (vw vh : ℚ) (ids : List String) (hw : 0 ≤ vw) (hh : 0 ≤ vh) :
    ResDistinct (buildPool vw vh ids).1 (buildPool vw vh ids).2.tiles ∧
    OccMatches (buildPool vw vh ids).2.occ (buildPool vw vh ids).2.tiles ∧
    ((buildPool vw vh ids).2.tiles.map coordOf).Perm
      (buildCoords (buildPool vw vh ids).1.cols.toNat (buildPool vw vh ids).1.rows.toNat
        (-(((buildPool vw vh ids).1.cols.toNat / 2 : Nat) : Int))
        (-(((buildPool vw vh ids).1.rows.toNat / 2 : Nat) : Int))) := by
  have hc := buildConfig_cols_pos vw vh hw
  have hr := buildConfig_rows_pos vw vh hh
  exact built_inv (buildConfig vw vh) ids (buildConfig vw vh).cols.toNat
    (buildConfig vw vh).rows.toNat
    (-(((buildConfig vw vh).cols.toNat / 2 : Nat) : Int))
    (-(((buildConfig vw vh).rows.toNat / 2 : Nat) : Int))
    (Int.toNat_of_nonneg hc.le).symm (Int.toNat_of_nonneg hr.le).symm

/-! ### Composition over frames -/

/-- Coordinate shifts by whole pool extents, composable across frames. -/
def ShiftOnly (cfg : Config) (t t' : Tile) : Prop :=
  (∃ a : Int, t'.col = t.col + a * cfg.cols) ∧ (∃ b : Int, t'.row = t.row + b * cfg.rows)

lemma forall₂_shift_trans (cfg : Config) :
    ∀ {l₁ l₂ l₃ : List Tile}, List.Forall₂ (ShiftOnly cfg) l₁ l₂ →
      List.Forall₂ (ShiftOnly cfg) l₂ l₃ → List.Forall₂ (ShiftOnly cfg) l₁ l₃ := by
  intro l₁ l₂ l₃ h12
  induction h12 generalizing l₃ with
  | nil =>
    intro h23
    cases h23
    exact List.Forall₂.nil
  | cons hR h ih =>
    intro h23
    cases h23 with
    | cons hR' h' =>
      refine List.Forall₂.cons ⟨?_, ?_⟩ (ih h')
      · obtain ⟨a1, e1⟩ := hR.1
        obtain ⟨a2, e2⟩ := hR'.1
        exact ⟨a1 + a2, by rw [e2, e1]; ring⟩
      · obtain ⟨b1, e1⟩ := hR.2
        obtain ⟨b2, e2⟩ := hR'.2
        exact ⟨b1 + b2, by rw [e2, e1]; ring⟩

lemma advance_inv (cfg : Config) (ids : List String) (pan : ℚ × ℚ)
    (hc : 0 < cfg.cols) (hr : 0 < cfg.rows) (s : EngState)
    (hres : ResDistinct cfg s.tiles) (hocc : OccMatches s.occ s.tiles) :
    List.Forall₂ (ShiftRel cfg) s.tiles (advance cfg ids s pan).tiles ∧
      ResDistinct cfg (advance cfg ids s pan).tiles ∧
      OccMatches (advance cfg ids s pan).occ (advance cfg ids s pan).tiles :=
  advanceTiles_master cfg ids pan hc hr s.tiles [] s.occ hres hocc

lemma runPans_nil (cfg : Config) (ids : List String) (s : EngState) :
    runPans cfg ids s [] = s := rfl

lemma runPans_cons (cfg : Config) (ids : List String) (s : EngState) (p : ℚ × ℚ)
    (ps : List (ℚ × ℚ)) :
    runPans cfg ids s (p :: ps) = runPans cfg ids (advance cfg ids s p) ps := rfl

lemma runPans_inv (cfg : Config) (ids : List String) (hc : 0 < cfg.cols) (hr : 0 < cfg.rows) :
    ∀ (pans : List (ℚ × ℚ)) (s : EngState),
      ResDistinct cfg s.tiles → OccMatches s.occ s.tiles →
      ResDistinct cfg (runPans cfg ids s pans).tiles ∧
        OccMatches (runPans cfg ids s pans).occ (runPans cfg ids s pans).tiles ∧
        List.Forall₂ (ShiftOnly cfg) s.tiles (runPans cfg ids s pans).tiles := by
  intro pans
  induction pans with
  | nil =>
    intro s h1 h2
    rw [runPans_nil]
    refine ⟨h1, h2, ?_⟩
    rw [List.forall₂_same]
    exact fun t _ => ⟨⟨0, by ring⟩, ⟨0, by ring⟩⟩
  | cons p ps ih =>
    intro s h1 h2
    obtain ⟨F1, R1, O1⟩ := advance_inv cfg ids p hc hr s h1 h2
    obtain ⟨R2, O2, F2⟩ := ih (advance cfg ids s p) R1 O1
    rw [runPans_cons]
    refine ⟨R2, O2, forall₂_shift_trans cfg (List.Forall₂.imp ?_ F1) F2⟩
    exact fun t t' hrel => ⟨hrel.1, hrel.2.1⟩

/-- A freshly built pool driven through an arbitrary pan sequence. -/
def engineRun (vw vh : ℚ) (ids : List String) (pans : List (ℚ × ℚ)) : EngState :=
  runPans (buildPool vw vh ids).1 ids (buildPool vw vh ids).2 pans

lemma coords_nodup_of_res (cfg : Config) (ts : List Tile) (h : ResDistinct cfg ts) :
    (ts.map coordOf).Nodup := by
  unfold ResDistinct at h
  have hcomp : ts.map (residue cfg) =
      (ts.map coordOf).map (fun c => (c.1 % cfg.cols, c.2 % cfg.rows)) := by
    rw [List.map_map]
    rfl
  rw [hcomp] at h
  exact h.of_map _

/-- C6: through the whole build + simulated frame run, no two tile
slots ever claim the same `(col, row)` coordinate, and the occupancy
map holds exactly one entry for each occupied coordinate (each slot's
coordinate maps to that slot's id) and no entry for any unoccupied
coordinate — build inserts exactly one entry per seeded coordinate, and
every wrap deletes the old coordinate's entry before inserting the new
one (see `wrapIfNeeded`). -/
theorem occupancy_map_consistent (vw vh : ℚ) (ids : List String) (pans : List (ℚ × ℚ))
    (hw : 0 ≤ vw) (hh : 0 ≤ vh) :
    ((engineRun vw vh ids pans).tiles.map coordOf).Nodup ∧
    (∀ t ∈ (engineRun vw vh ids pans).tiles,
      (engineRun vw vh ids pans).occ (coordOf t) = some t.id) ∧
    (∀ c, (∀ t ∈ (engineRun vw vh ids pans).tiles, coordOf t ≠ c) →
      (engineRun vw vh ids pans).occ c = none) := by
  obtain ⟨R0, O0, _⟩ := buildPool_inv vw vh ids hw hh
  obtain ⟨R, O, _⟩ := runPans_inv (buildPool vw vh ids).1 ids
    (buildConfig_cols_pos vw vh hw) (buildConfig_rows_pos vw vh hh) pans
    (buildPool vw vh ids).2 R0 O0
  exact ⟨coords_nodup_of_res _ _ R, O.1, O.2⟩

/-- Witness for C6 at a concrete viewport and pan sequence. -/
theorem occupancy_map_consistent_witness :
    (0 : ℚ) ≤ 800 ∧ (0 : ℚ) ≤ 600 ∧
    ((engineRun 800 600 ["a", "b", "c"] [(40, -20)]).tiles.map coordOf).Nodup ∧
    (∀ t ∈ (engineRun 800 600 ["a", "b", "c"] [(40, -20)]).tiles,
      (engineRun 800 600 ["a", "b", "c"] [(40, -20)]).occ (coordOf t) = some t.id) :=
  ⟨by norm_num, by norm_num,
    (occupancy_map_consistent 800 600 ["a", "b", "c"] [(40, -20)]
      (by norm_num) (by norm_num)).1,
    (occupancy_map_consistent 800 600 ["a", "b", "c"] [(40, -20)]
      (by norm_num) (by norm_num)).2.1⟩

/-- C9: every wrap changes a slot's `col` by an exact integer multiple
of the pool's column count and its `row` by an exact multiple of the
row count, so each slot's residue pair `(col % poolCols, row % poolRows)`
is preserved from build through every subsequent frame; the residues are
pairwise distinct from the start, hence no two slots ever occupy the
same grid coordinate. -/
theorem residue_class_invariant (vw vh : ℚ) (ids : List String) (pans : List (ℚ × ℚ))
    (hw : 0 ≤ vw) (hh : 0 ≤ vh) :
    List.Forall₂ (fun t0 t =>
        (∃ a : Int, t.col = t0.col + a * (buildPool vw vh ids).1.cols) ∧
        (∃ b : Int, t.row = t0.row + b * (buildPool vw vh ids).1.rows) ∧
        residue (buildPool vw vh ids).1 t = residue (buildPool vw vh ids).1 t0)
      (buildPool vw vh ids).2.tiles (engineRun vw vh ids pans).tiles ∧
    ((engineRun vw vh ids pans).tiles.map (residue (buildPool vw vh ids).1)).Nodup ∧
    ((engineRun vw vh ids pans).tiles.map coordOf).Nodup := by
  obtain ⟨R0, O0, _⟩ := buildPool_inv vw vh ids hw hh
  obtain ⟨R, O, F⟩ := runPans_inv (buildPool vw vh ids).1 ids
    (buildConfig_cols_pos vw vh hw) (buildConfig_rows_pos vw vh hh) pans
    (buildPool vw vh ids).2 R0 O0
  refine ⟨List.Forall₂.imp ?_ F, R, coords_nodup_of_res _ _ R⟩
  intro t0 t hrel
  obtain ⟨⟨a, ea⟩, ⟨b, eb⟩⟩ := hrel
  exact ⟨⟨a, ea⟩, ⟨b, eb⟩, residue_shift _ t0 t a b ea eb⟩

/-- Witness for C9 at a concrete viewport and pan sequence. -/
theorem residue_class_invariant_witness :
    (0 : ℚ) ≤ 800 ∧ (0 : ℚ) ≤ 600 ∧
    (((engineRun 800 600 ["a", "b", "c"] [(-3000, 500)]).tiles.map
      (residue (buildPool 800 600 ["a", "b", "c"]).1)).Nodup ∧
     ((engineRun 800 600 ["a", "b", "c"] [(-3000, 500)]).tiles.map coordOf).Nodup) :=
  ⟨by norm_num, by norm_num,
    (residue_class_invariant 800 600 ["a", "b", "c"] [(-3000, 500)]
      (by norm_num) (by norm_num)).2⟩

/-! ### C5: media reassignment only on wrap -/

/-- One frame shifts each slot by at most one pool extent per axis, and
leaves the id untouched unless the coordinate moved. -/
def StepRel (cfg : Config) (t t' : Tile) : Prop :=
  (t'.col = t.col ∨ t'.col = t.col + cfg.cols ∨ t'.col = t.col - cfg.cols) ∧
    (t'.row = t.row ∨ t'.row = t.row + cfg.rows ∨ t'.row = t.row - cfg.rows) ∧
    ((t'.col = t.col ∧ t'.row = t.row) → t'.id = t.id)

lemma advanceTiles_step (cfg : Config) (ids : List String) (pan : ℚ × ℚ)
    (hc : 0 < cfg.cols) (hr : 0 < cfg.rows) :
    ∀ (ts : List Tile) (occ : OccMap),
      List.Forall₂ (StepRel cfg) ts (advanceTiles cfg ids pan ts occ).1 := by
  intro ts
  induction ts with
  | nil => intro occ; exact List.Forall₂.nil
  | cons t ts ih =>
    intro occ
    rw [advanceTiles_cons]
    refine List.Forall₂.cons ?_ (ih _)
    rcases wrapIfNeeded_cases cfg ids pan occ t with hid | ⟨a, b, ha, hb, hab, hcol, hrow, _⟩
    · rw [hid]
      exact ⟨Or.inl rfl, Or.inl rfl, fun _ => rfl⟩
    · refine ⟨?_, ?_, ?_⟩
      · rcases ha with h | h | h
        · exact Or.inl (by rw [hcol, h]; ring)
        · exact Or.inr (Or.inl (by rw [hcol, h]; ring))
        · exact Or.inr (Or.inr (by rw [hcol, h]; ring))
      · rcases hb with h | h | h
        · exact Or.inl (by rw [hrow, h]; ring)
        · exact Or.inr (Or.inl (by rw [hrow, h]; ring))
        · exact Or.inr (Or.inr (by rw [hrow, h]; ring))
      · intro hEq
        exfalso
        have e1 : a * cfg.cols = 0 := by
          have h1 := hEq.1
          rw [hcol] at h1
          linarith
        have e2 : b * cfg.rows = 0 := by
          have h2 := hEq.2
          rw [hrow] at h2
          linarith
        rcases mul_eq_zero.mp e1 with h | h
        · rcases mul_eq_zero.mp e2 with h' | h'
          · exact hab ⟨h, h'⟩
          · omega
        · omega

lemma step_ids_eq (cfg : Config) {ts ts' : List Tile}
    (F : List.Forall₂ (StepRel cfg) ts ts')
    (hco : ts'.map coordOf = ts.map coordOf) : ts'.map Tile.id = ts.map Tile.id := by
  induction F with
  | nil => rfl
  | cons hR F ih =>
    rw [List.map_cons, List.map_cons] at hco ⊢
    injection hco with h1 h2
    rw [ih h2]
    rw [hR.2.2 ((coord_eq_iff _ _).mp h1)]

lemma noWrapRun_ids (cfg : Config) (ids : List String) (hc : 0 < cfg.cols) (hr : 0 < cfg.rows) :
    ∀ (pans : List (ℚ × ℚ)) (s : EngState), NoWrapRun cfg ids s pans →
      (runPans cfg ids s pans).tiles.map Tile.id = s.tiles.map Tile.id := by
  intro pans
  induction pans with
  | nil =>
    intro s _
    rw [runPans_nil]
  | cons p ps ih =>
    intro s hnw
    obtain ⟨hco, hrest⟩ := hnw
    rw [runPans_cons, ih (advance cfg ids s p) hrest]
    exact step_ids_eq cfg (advanceTiles_step cfg ids p hc hr s.tiles s.occ) hco

/-- C5: a tile slot's assigned media identity changes only on frames
where its `(col, row)` changed (a wrap): on any single `advance`, every
slot whose coordinate is unchanged keeps its id, and over any pan
sequence that never triggers a wrap every slot's assigned media is
identical across all frames. -/
theorem media_reassignment_only_on_wrap (cfg : Config) (ids : List String)
    (hc : 0 < cfg.cols) (hr : 0 < cfg.rows) :
    (∀ (s : EngState) (pan : ℚ × ℚ),
      List.Forall₂ (fun t t' => (t'.col = t.col ∧ t'.row = t.row) → t'.id = t.id)
        s.tiles (advance cfg ids s pan).tiles) ∧
    (∀ (s : EngState) (pans : List (ℚ × ℚ)),
      NoWrapRun cfg ids s pans →
      (runPans cfg ids s pans).tiles.map Tile.id = s.tiles.map Tile.id) := by
  constructor
  · intro s pan
    exact List.Forall₂.imp (fun t t' h => h.2.2)
      (advanceTiles_step cfg ids pan hc hr s.tiles s.occ)
  · intro s pans
    exact noWrapRun_ids cfg ids hc hr pans s

/-- Witness for C5: a one-slot pool at the origin with a zero pan never
wraps, and its media assignment is unchanged across the frame. -/
theorem media_reassignment_only_on_wrap_witness :
    (0 : Int) < 9 ∧
    NoWrapRun ⟨9, 9, 800, 600⟩ ["a", "b"]
      ⟨[⟨0, 0, "a"⟩], mapSet (fun _ => none) (0, 0) "a"⟩ [(0, 0)] ∧
    (runPans ⟨9, 9, 800, 600⟩ ["a", "b"]
        ⟨[⟨0, 0, "a"⟩], mapSet (fun _ => none) (0, 0) "a"⟩ [(0, 0)]).tiles.map Tile.id =
      (⟨[⟨0, 0, "a"⟩], mapSet (fun _ => none) (0, 0) "a"⟩ : EngState).tiles.map Tile.id := by
  have hnm : wrapIfNeeded ⟨9, 9, 800, 600⟩ ["a", "b"] (0, 0)
      (mapSet (fun _ => none) (0, 0) "a") ⟨0, 0, "a"⟩ =
      (⟨0, 0, "a"⟩, mapSet (fun _ => none) (0, 0) "a") := by
    apply wrapIfNeeded_not_moved
    · show ¬(((0 : Int) : ℚ) * 270 + 0 < -(270 * 3))
      norm_num
    · show ¬((800 : ℚ) + 270 * 3 < ((0 : Int) : ℚ) * 270 + 0)
      norm_num
    · show ¬(((0 : Int) : ℚ) * 270 + 0 < -(270 * 3))
      norm_num
    · show ¬((600 : ℚ) + 270 * 3 < ((0 : Int) : ℚ) * 270 + 0)
      norm_num
  have hadv : advance ⟨9, 9, 800, 600⟩ ["a", "b"]
      ⟨[⟨0, 0, "a"⟩], mapSet (fun _ => none) (0, 0) "a"⟩ (0, 0) =
      ⟨[⟨0, 0, "a"⟩], mapSet (fun _ => none) (0, 0) "a"⟩ := by
    show (⟨(advanceTiles ⟨9, 9, 800, 600⟩ ["a", "b"] (0, 0) [⟨0, 0, "a"⟩]
        (mapSet (fun _ => none) (0, 0) "a")).1,
      (advanceTiles ⟨9, 9, 800, 600⟩ ["a", "b"] (0, 0) [⟨0, 0, "a"⟩]
        (mapSet (fun _ => none) (0, 0) "a")).2⟩ : EngState) =
      ⟨[⟨0, 0, "a"⟩], mapSet (fun _ => none) (0, 0) "a"⟩
    rw [advanceTiles_cons, hnm]
    rfl
  have hnw : NoWrapRun ⟨9, 9, 800, 600⟩ ["a", "b"]
      ⟨[⟨0, 0, "a"⟩], mapSet (fun _ => none) (0, 0) "a"⟩ [(0, 0)] := by
    show coordsOf (advance ⟨9, 9, 800, 600⟩ ["a", "b"]
        ⟨[⟨0, 0, "a"⟩], mapSet (fun _ => none) (0, 0) "a"⟩ (0, 0)) =
      coordsOf ⟨[⟨0, 0, "a"⟩], mapSet (fun _ => none) (0, 0) "a"⟩ ∧ True
    rw [hadv]
    exact ⟨rfl, trivial⟩
  exact ⟨by norm_num, hnw,
    (media_reassignment_only_on_wrap ⟨9, 9, 800, 600⟩ ["a", "b"]
      (by norm_num) (by norm_num)).2
      ⟨[⟨0, 0, "a"⟩], mapSet (fun _ => none) (0, 0) "a"⟩ [(0, 0)] hnw⟩

/-! ### C1: wrap correction of the pool-wrap variant (components/Experience.tsx)

Cell size `CELL = TILE_SIZE + GAP = 160 + 100 = 260`; the `tick` loop
(lines 468–495) re-bases a cell's coordinate with `while` loops:
```js
while (tx < minX) { cell.col += cols; tx = cell.col * CELL + view.x; }
while (tx > maxX) { cell.col -= cols; tx = cell.col * CELL + view.x; }
```
(and the same for the y axis with `rows`).  `minX = -WRAP_MARGIN`,
`maxX = w + WRAP_MARGIN` with `WRAP_MARGIN = CELL*(OVERSCAN+4) +
TILE_SIZE = 1720`, and `cols = ceil(w/CELL) + OVERSCAN*2 + 1`. -/

def wrapLow (ext : Int) (hext : 0 < ext) (vx minX : ℚ) (col : Int) : Int :=
  if h : (col : ℚ) * 260 + vx < minX then wrapLow ext hext vx minX (col + ext) else col
termination_by (⌈(minX - vx) / 260⌉ - col).toNat
decreasing_by
  have h1 : (col : ℚ) < (minX - vx) / 260 := by
    rw [lt_div_iff₀ (by norm_num : (0 : ℚ) < 260)]
    linarith
  have h2 : col < ⌈(minX - vx) / 260⌉ := Int.lt_ceil.mpr h1
  omega

def wrapHigh (ext : Int) (hext : 0 < ext) (vx maxX : ℚ) (col : Int) : Int :=
  if h : maxX < (col : ℚ) * 260 + vx then wrapHigh ext hext vx maxX (col - ext) else col
termination_by (col - ⌊(maxX - vx) / 260⌋).toNat
decreasing_by
  have h1 : (maxX - vx) / 260 < (col : ℚ) := by
    rw [div_lt_iff₀ (by norm_num : (0 : ℚ) < 260)]
    linarith
  have h2 : ⌊(maxX - vx) / 260⌋ < col := Int.floor_lt.mpr h1
  omega

lemma wrapLow_ge (ext : Int) (hext : 0 < ext) (vx minX : ℚ) :
    ∀ (col : Int), minX ≤ (wrapLow ext hext vx minX col : ℚ) * 260 + vx := by
  have H : ∀ (n : Nat) (col : Int), (⌈(minX - vx) / 260⌉ - col).toNat = n →
      minX ≤ (wrapLow ext hext vx minX col : ℚ) * 260 + vx := by
    intro n
    induction n using Nat.strong_induction_on with
    | _ n ih =>
      intro col hn
      by_cases h : (col : ℚ) * 260 + vx < minX
      · rw [wrapLow, dif_pos h]
        have h1 : (col : ℚ) < (minX - vx) / 260 := by
          rw [lt_div_iff₀ (by norm_num : (0 : ℚ) < 260)]
          linarith
        have h2 : col < ⌈(minX - vx) / 260⌉ := Int.lt_ceil.mpr h1
        exact ih ((⌈(minX - vx) / 260⌉ - (col + ext)).toNat) (by omega) (col + ext) rfl
      · rw [wrapLow, dif_neg h]
        linarith [not_lt.mp h]
  exact fun col => H _ col rfl

lemma wrapLow_id (ext : Int) (hext : 0 < ext) (vx minX : ℚ) (col : Int)
    (h : ¬ ((col : ℚ) * 260 + vx < minX)) : wrapLow ext hext vx minX col = col := by
  rw [wrapLow, dif_neg h]

lemma wrapLow_lt (ext : Int) (hext : 0 < ext) (vx minX : ℚ) :
    ∀ (col : Int), (col : ℚ) * 260 + vx < minX →
      (wrapLow ext hext vx minX col : ℚ) * 260 + vx < minX + (ext : ℚ) * 260 := by
  have H : ∀ (n : Nat) (col : Int), (⌈(minX - vx) / 260⌉ - col).toNat = n →
      (col : ℚ) * 260 + vx < minX →
      (wrapLow ext hext vx minX col : ℚ) * 260 + vx < minX + (ext : ℚ) * 260 := by
    intro n
    induction n using Nat.strong_induction_on with
    | _ n ih =>
      intro col hn h
      rw [wrapLow, dif_pos h]
      by_cases h' : ((col + ext : Int) : ℚ) * 260 + vx < minX
      · have h1 : (col : ℚ) < (minX - vx) / 260 := by
          rw [lt_div_iff₀ (by norm_num : (0 : ℚ) < 260)]
          linarith
        have h2 : col < ⌈(minX - vx) / 260⌉ := Int.lt_ceil.mpr h1
        exact ih ((⌈(minX - vx) / 260⌉ - (col + ext)).toNat) (by omega) (col + ext) rfl h'
      · rw [wrapLow_id ext hext vx minX (col + ext) h']
        push_cast
        push_cast at h
        linarith
  exact fun col => H _ col rfl

lemma wrapHigh_le (ext : Int) (hext : 0 < ext) (vx maxX : ℚ) :
    ∀ (col : Int), (wrapHigh ext hext vx maxX col : ℚ) * 260 + vx ≤ maxX := by
  have H : ∀ (n : Nat) (col : Int), (col - ⌊(maxX - vx) / 260⌋).toNat = n →
      (wrapHigh ext hext vx maxX col : ℚ) * 260 + vx ≤ maxX := by
    intro n
    induction n using Nat.strong_induction_on with
    | _ n ih =>
      intro col hn
      by_cases h : maxX < (col : ℚ) * 260 + vx
      · rw [wrapHigh, dif_pos h]
        have h1 : (maxX - vx) / 260 < (col : ℚ) := by
          rw [div_lt_iff₀ (by norm_num : (0 : ℚ) < 260)]
          linarith
        have h2 : ⌊(maxX - vx) / 260⌋ < col := Int.floor_lt.mpr h1
        exact ih ((col - ext - ⌊(maxX - vx) / 260⌋).toNat) (by omega) (col - ext) rfl
      · rw [wrapHigh, dif_neg h]
        linarith [not_lt.mp h]
  exact fun col => H _ col rfl

lemma wrapHigh_id (ext : Int) (hext : 0 < ext) (vx maxX : ℚ) (col : Int)
    (h : ¬ (maxX < (col : ℚ) * 260 + vx)) : wrapHigh ext hext vx maxX col = col := by
  rw [wrapHigh, dif_neg h]

lemma wrapHigh_gt (ext : Int) (hext : 0 < ext) (vx maxX : ℚ) :
    ∀ (col : Int), maxX < (col : ℚ) * 260 + vx →
      maxX - (ext : ℚ) * 260 < (wrapHigh ext hext vx maxX col : ℚ) * 260 + vx := by
  have H : ∀ (n : Nat) (col : Int), (col - ⌊(maxX - vx) / 260⌋).toNat = n →
      maxX < (col : ℚ) * 260 + vx →
      maxX - (ext : ℚ) * 260 < (wrapHigh ext hext vx maxX col : ℚ) * 260 + vx := by
    intro n
    induction n using Nat.strong_induction_on with
    | _ n ih =>
      intro col hn h
      rw [wrapHigh, dif_pos h]
      by_cases h' : maxX < ((col - ext : Int) : ℚ) * 260 + vx
      · have h1 : (maxX - vx) / 260 < (col : ℚ) := by
          rw [div_lt_iff₀ (by norm_num : (0 : ℚ) < 260)]
          linarith
        have h2 : ⌊(maxX - vx) / 260⌋ < col := Int.floor_lt.mpr h1
        exact ih ((col - ext - ⌊(maxX - vx) / 260⌋).toNat) (by omega) (col - ext) rfl h'
      · rw [wrapHigh_id ext hext vx maxX (col - ext) h']
        push_cast
        push_cast at h
        linarith
  exact fun col => H _ col rfl

/-- The full per-axis wrap correction of one `tick`: the low loop, then
the high loop. -/
def wrapAxis (ext : Int) (hext : 0 < ext) (vx minX maxX : ℚ) (col : Int) : Int :=
  wrapHigh ext hext vx maxX (wrapLow ext hext vx minX col)

/-- The guard band of the pool-wrap variant is always wide enough for
its own pool extent: `(ceil(w/260)+5) * 260 ≤ (w+1720) - (-1720)`. -/
lemma tsx_band_wide (w : ℚ) :
    ((⌈w / 260⌉ + 5 : Int) : ℚ) * 260 ≤ (w + 1720) - (-1720) := by
  have h2 : (⌈w / 260⌉ : ℚ) < w / 260 + 1 := Int.ceil_lt_add_one (w / 260)
  have h3 : w / 260 * 260 = w := by
    field_simp
  push_cast
  nlinarith

/-- C1 (amended, while-loop variant): for the variant that corrects
with `while` loops (`src/components/Experience.tsx` tick), whenever the
guard band is at least one pool extent wide — which `tsx_band_wide`
shows always holds for that file's constants — the re-based screen
position lands inside the guard band `[minX, maxX]` after every frame,
for every current coordinate and arbitrarily large pan offset. -/
theorem wrap_while_loop_in_band (ext : Int) (hext : 0 < ext) (vx minX maxX : ℚ) (col : Int)
    (hband : (ext : ℚ) * 260 ≤ maxX - minX) :
    minX ≤ (wrapAxis ext hext vx minX maxX col : ℚ) * 260 + vx ∧
      (wrapAxis ext hext vx minX maxX col : ℚ) * 260 + vx ≤ maxX := by
  unfold wrapAxis
  have h1 : minX ≤ (wrapLow ext hext vx minX col : ℚ) * 260 + vx :=
    wrapLow_ge ext hext vx minX col
  constructor
  · by_cases h : maxX < (wrapLow ext hext vx minX col : ℚ) * 260 + vx
    · have h2 := wrapHigh_gt ext hext vx maxX (wrapLow ext hext vx minX col) h
      linarith
    · rw [wrapHigh_id ext hext vx maxX _ h]
      exact h1
  · exact wrapHigh_le ext hext vx maxX (wrapLow ext hext vx minX col)

/-- Witness for C1's amended theorem with the source constants at
viewport width 800 (`ext = ceil(800/260)+5 = 9`, band `[-1720, 2520]`)
and a pan jump of a million pixels. -/
theorem wrap_while_loop_in_band_witness :
    (0 : Int) < 9 ∧ ((9 : Int) : ℚ) * 260 ≤ (800 + 1720) - (-1720) ∧
    (-1720 ≤ (wrapAxis 9 (by norm_num) (-1000000) (-1720) (800 + 1720) 0 : ℚ) * 260 +
        (-1000000) ∧
      (wrapAxis 9 (by norm_num) (-1000000) (-1720) (800 + 1720) 0 : ℚ) * 260 +
        (-1000000) ≤ 800 + 1720) :=
  ⟨by norm_num, by norm_num,
    wrap_while_loop_in_band 9 (by norm_num) (-1000000) (-1720) (800 + 1720) 0 (by norm_num)⟩

/-- C1 counterexample: in the `wrapIfNeeded` variant
(`src/unnamed/part_000`), each axis is shifted only **once** per
advance pass, not repeatedly.  After a single-frame pan jump to
`panView.x = -10000` the freshly built 800×600 pool has a slot whose
base screen position is still left of the guard band
`[-270*3, vw + 270*3]` at the end of the pass — refuting the claim
that every slot is inside the band after arbitrarily large jumps. -/
theorem wrap_single_shift_leaves_band :
    ∃ t ∈ (engineRun 800 600 ["a", "b", "c", "d", "e"] [(-10000, 0)]).tiles,
      (t.col : ℚ) * 270 + (-10000) < -(270 * 3) := by
  have hc9 : (buildPool 800 600 ["a", "b", "c", "d", "e"]).1.cols = 9 := by
    have h3 : (⌈(800 : ℚ) / 270⌉ : Int) = 3 := by
      rw [Int.ceil_eq_iff]
      norm_num
    show ⌈(800 : ℚ) / 270⌉ + 6 = 9
    omega
  have hr9 : (buildPool 800 600 ["a", "b", "c", "d", "e"]).1.rows = 9 := by
    have h3 : (⌈(600 : ℚ) / 270⌉ : Int) = 3 := by
      rw [Int.ceil_eq_iff]
      norm_num
    show ⌈(600 : ℚ) / 270⌉ + 6 = 9
    omega
  have hct : (buildPool 800 600 ["a", "b", "c", "d", "e"]).1.cols.toNat = 9 := by
    rw [hc9]
    rfl
  have hrt : (buildPool 800 600 ["a", "b", "c", "d", "e"]).1.rows.toNat = 9 := by
    rw [hr9]
    rfl
  obtain ⟨R0, O0, hperm⟩ :=
    buildPool_inv 800 600 ["a", "b", "c", "d", "e"] (by norm_num) (by norm_num)
  rw [hct, hrt] at hperm
  have hsc : -((((9 : Nat) / 2 : Nat)) : Int) = -4 := by norm_num
  rw [hsc] at hperm
  have hbound : ∀ t ∈ (buildPool 800 600 ["a", "b", "c", "d", "e"]).2.tiles, t.col ≤ 4 := by
    intro t ht
    have hmem : coordOf t ∈
        (buildPool 800 600 ["a", "b", "c", "d", "e"]).2.tiles.map coordOf :=
      List.mem_map_of_mem coordOf ht
    have hmem2 := hperm.mem_iff.mp hmem
    rw [mem_buildCoords] at hmem2
    obtain ⟨r, hrlt, c, hclt, heq⟩ := hmem2
    have hcol := congrArg Prod.fst heq
    simp only [coordOf] at hcol
    omega
  have hcpos : (0 : Int) < (buildPool 800 600 ["a", "b", "c", "d", "e"]).1.cols := by
    rw [hc9]
    norm_num
  have hrpos : (0 : Int) < (buildPool 800 600 ["a", "b", "c", "d", "e"]).1.rows := by
    rw [hr9]
    norm_num
  have F := advanceTiles_step (buildPool 800 600 ["a", "b", "c", "d", "e"]).1
    ["a", "b", "c", "d", "e"] (-10000, 0) hcpos hrpos
    (buildPool 800 600 ["a", "b", "c", "d", "e"]).2.tiles
    (buildPool 800 600 ["a", "b", "c", "d", "e"]).2.occ
  have hlen : (buildPool 800 600 ["a", "b", "c", "d", "e"]).2.tiles.length = 81 := by
    have h1 := hperm.length_eq
    rw [List.length_map] at h1
    have hbc : (buildCoords 9 9 (-4) (-4)).length = 81 := by decide
    omega
  obtain ⟨t0, rest, htl⟩ : ∃ t0 rest,
      (buildPool 800 600 ["a", "b", "c", "d", "e"]).2.tiles = t0 :: rest := by
    cases h : (buildPool 800 600 ["a", "b", "c", "d", "e"]).2.tiles with
    | nil => rw [h] at hlen; simp at hlen
    | cons a l => exact ⟨a, l, rfl⟩
  rw [htl] at F
  rw [List.forall₂_cons_left_iff] at F
  obtain ⟨t0', rest', hR, _, hadvtl⟩ := F
  have hb0 : t0.col ≤ 4 := hbound t0 (by rw [htl]; exact List.mem_cons_self t0 rest)
  have hcol13 : t0'.col ≤ 13 := by
    rcases hR.1 with h | h | h
    · omega
    · rw [hc9] at h
      omega
    · rw [hc9] at h
      omega
  refine ⟨t0', ?_, ?_⟩
  · show t0' ∈ (advanceTiles (buildPool 800 600 ["a", "b", "c", "d", "e"]).1
      ["a", "b", "c", "d", "e"] (-10000, 0)
      (buildPool 800 600 ["a", "b", "c", "d", "e"]).2.tiles
      (buildPool 800 600 ["a", "b", "c", "d", "e"]).2.occ).1
    rw [htl, hadvtl]
    exact List.mem_cons_self t0' rest'
  · have hq : (t0'.col : ℚ) ≤ 13 := by exact_mod_cast hcol13
    linarith

/-! ### C8: ripple time constant is monotone in distance -/

/-- `clamp(v, a, b) = Math.max(a, Math.min(b, v))` — both variants
define it exactly like this. -/
def clampQ (v a b : ℚ) : ℚ := max a (min b v)

/-- Ring time constant of the pool-wrap variant (`tick`, lines
544–552): `tauRaw = base + ring * step`, clamped to `[base, max]`.
Drag phase uses `(0.22, 0.028, 0.55)`, settle phase `(0.12, 0.03, 0.4)`. -/
def ringTau (baseTau stepTau maxTau : ℚ) (ring : ℚ) : ℚ :=
  clampQ (baseTau + ring * stepTau) baseTau maxTau

/-- `durToTau` of the unnamed variant (line 174): `dur / 6`. -/
def durToTau (dur : ℚ) : ℚ := dur / 6

/-- `computeTau` of the unnamed variant (`src/unnamed/part_000`, lines
708–718) as a function of the tile-to-origin distance
`dist = hypot(cx - ds.x, cy - ds.y)`:
`ring = clamp(dist / SPAN, 0, 10)`,
`dur = clamp(0.5 + ring * 0.3, 0.5, 3.2)`, `tau = durToTau dur`. -/
def computeTau (dist : ℚ) : ℚ :=
  durToTau (clampQ (0.5 + clampQ (dist / 270) 0 10 * 0.3) 0.5 3.2)

lemma clampQ_mono (a b : ℚ) {v w : ℚ} (h : v ≤ w) : clampQ v a b ≤ clampQ w a b :=
  max_le_max (le_refl a) (min_le_min (le_refl b) h)

/-- C8: the ripple time constant
`clamp(baseTau + distance * stepTau, baseTau, maxTau)` is monotonically
non-decreasing in the distance from the interaction origin, for the
drag-phase constants, the settle-phase constants, and the unnamed
variant's `computeTau`. -/
theorem ripple_tau_monotone (d1 d2 : ℚ) (h : d1 ≤ d2) :
    ringTau 0.22 0.028 0.55 d1 ≤ ringTau 0.22 0.028 0.55 d2 ∧
    ringTau 0.12 0.03 0.4 d1 ≤ ringTau 0.12 0.03 0.4 d2 ∧
    computeTau d1 ≤ computeTau d2 := by
  refine ⟨clampQ_mono _ _ (by linarith), clampQ_mono _ _ (by linarith), ?_⟩
  unfold computeTau durToTau
  have h1 : clampQ (d1 / 270) 0 10 ≤ clampQ (d2 / 270) 0 10 :=
    clampQ_mono _ _ (by linarith)
  have h2 : clampQ (0.5 + clampQ (d1 / 270) 0 10 * 0.3) 0.5 3.2 ≤
      clampQ (0.5 + clampQ (d2 / 270) 0 10 * 0.3) 0.5 3.2 :=
    clampQ_mono _ _ (by linarith)
  linarith

/-- Witness for C8 at concrete distances `1 ≤ 2`. -/
theorem ripple_tau_monotone_witness :
    (1 : ℚ) ≤ 2 ∧
    (ringTau 0.22 0.028 0.55 1 ≤ ringTau 0.22 0.028 0.55 2 ∧
     ringTau 0.12 0.03 0.4 1 ≤ ringTau 0.12 0.03 0.4 2 ∧
     computeTau 1 ≤ computeTau 2) :=
  ⟨by norm_num, ripple_tau_monotone 1 2 (by norm_num)⟩

/-! ### C7: inertia decay (components/Experience.tsx, lines 419–433)

```js
const friction = Math.pow(FRICTION_BASE, dt);   // FRICTION_BASE = 0.06
inertia.vx *= friction; inertia.vy *= friction;
panTarget += v * dt;
const speed = Math.hypot(inertia.vx, inertia.vy);
if (speed < INERTIA_STOP_SPEED) { active = false; vx = 0; vy = 0; }
```
(`INERTIA_STOP_SPEED = 8`.)  The per-frame decay multiplies velocity by
`f ^ dt` — real exponentiation — so over any partition of elapsed time
the factors compose exactly to `f ^ t`.  The unnamed variant's
`d = exp(-FRICTION*dt)` is the same law with `f = exp(-FRICTION)`. -/

structure InertiaState where
  vx : ℝ
  vy : ℝ
  active : Bool

/-- The pure multiplicative decay `v *= Math.pow(f, dt)` folded over a
list of frame timesteps. -/
noncomputable def decayRun (f v0 : ℝ) (dts : List ℝ) : ℝ :=
  dts.foldl (fun v dt => v * f ^ dt) v0

/-- One frame of the inertia branch: decay, then snap exactly to zero
and deactivate when the speed falls below the stop threshold. -/
noncomputable def inertiaStep (f stop dt : ℝ) (s : InertiaState) : InertiaState :=
  if s.active then
    if Real.sqrt ((s.vx * f ^ dt) ^ 2 + (s.vy * f ^ dt) ^ 2) < stop then ⟨0, 0, false⟩
    else ⟨s.vx * f ^ dt, s.vy * f ^ dt, true⟩
  else s

noncomputable def inertiaIter (f stop dt : ℝ) : Nat → InertiaState → InertiaState
  | 0, s => s
  | n + 1, s => inertiaStep f stop dt (inertiaIter f stop dt n s)

lemma inertiaIter_dichotomy (f stop dt vx vy : ℝ) :
    ∀ n : Nat,
      inertiaIter f stop dt n ⟨vx, vy, true⟩ = ⟨0, 0, false⟩ ∨
      inertiaIter f stop dt n ⟨vx, vy, true⟩ =
        ⟨vx * (f ^ dt) ^ n, vy * (f ^ dt) ^ n, true⟩ := by
  intro n
  induction n with
  | zero =>
    right
    simp [inertiaIter]
  | succ n ih =>
    have hstep : inertiaIter f stop dt (n + 1) ⟨vx, vy, true⟩ =
        inertiaStep f stop dt (inertiaIter f stop dt n ⟨vx, vy, true⟩) := rfl
    rcases ih with h | h
    · left
      rw [hstep, h]
      simp [inertiaStep]
    · rw [hstep, h]
      by_cases hs :
          Real.sqrt ((vx * (f ^ dt) ^ n * f ^ dt) ^ 2 + (vy * (f ^ dt) ^ n * f ^ dt) ^ 2) < stop
      · left
        simp [inertiaStep, hs]
      · right
        simp only [inertiaStep, if_true, if_neg hs, InertiaState.mk.injEq, and_true]
        exact ⟨by ring, by ring⟩

lemma inertiaIter_terminates (f stop dt vx vy : ℝ)
    (h0 : 0 < f) (h1 : f < 1) (hstop : 0 < stop) (hdt : 0 < dt) :
    ∃ n, inertiaIter f stop dt n ⟨vx, vy, true⟩ = ⟨0, 0, false⟩ := by
  have hr0 : 0 < f ^ dt := Real.rpow_pos_of_pos h0 dt
  have hr1 : f ^ dt < 1 := Real.rpow_lt_one h0.le h1 hdt
  have hs0nn : 0 ≤ Real.sqrt (vx ^ 2 + vy ^ 2) := Real.sqrt_nonneg _
  obtain ⟨N, hN⟩ := exists_pow_lt_of_lt_one
    (show (0 : ℝ) < stop / (Real.sqrt (vx ^ 2 + vy ^ 2) + 1) by positivity) hr1
  have hsN : Real.sqrt (vx ^ 2 + vy ^ 2) * (f ^ dt) ^ N < stop := by
    have h2 : Real.sqrt (vx ^ 2 + vy ^ 2) * (f ^ dt) ^ N ≤
        (Real.sqrt (vx ^ 2 + vy ^ 2) + 1) * (f ^ dt) ^ N := by
      nlinarith [pow_nonneg hr0.le N]
    have h3 : (Real.sqrt (vx ^ 2 + vy ^ 2) + 1) * (f ^ dt) ^ N <
        (Real.sqrt (vx ^ 2 + vy ^ 2) + 1) *
          (stop / (Real.sqrt (vx ^ 2 + vy ^ 2) + 1)) :=
      mul_lt_mul_of_pos_left hN (by positivity)
    rw [mul_div_cancel₀ _ (by positivity : Real.sqrt (vx ^ 2 + vy ^ 2) + 1 ≠ 0)] at h3
    linarith
  refine ⟨N + 1, ?_⟩
  rcases inertiaIter_dichotomy f stop dt vx vy (N + 1) with h | h
  · exact h
  · exfalso
    have hstep : inertiaIter f stop dt (N + 1) ⟨vx, vy, true⟩ =
        inertiaStep f stop dt (inertiaIter f stop dt N ⟨vx, vy, true⟩) := rfl
    have hcond : Real.sqrt ((vx * (f ^ dt) ^ N * f ^ dt) ^ 2 +
        (vy * (f ^ dt) ^ N * f ^ dt) ^ 2) < stop := by
      have he : (vx * (f ^ dt) ^ N * f ^ dt) ^ 2 + (vy * (f ^ dt) ^ N * f ^ dt) ^ 2 =
          ((f ^ dt) ^ (N + 1)) ^ 2 * (vx ^ 2 + vy ^ 2) := by ring
      rw [he, Real.sqrt_mul (sq_nonneg _), Real.sqrt_sq (by positivity)]
      have hmono : (f ^ dt) ^ (N + 1) ≤ (f ^ dt) ^ N :=
        pow_le_pow_of_le_one hr0.le hr1.le (Nat.le_succ N)
      have hb : (f ^ dt) ^ (N + 1) * Real.sqrt (vx ^ 2 + vy ^ 2) ≤
          (f ^ dt) ^ N * Real.sqrt (vx ^ 2 + vy ^ 2) :=
        mul_le_mul_of_nonneg_right hmono hs0nn
      calc (f ^ dt) ^ (N + 1) * Real.sqrt (vx ^ 2 + vy ^ 2) ≤
            (f ^ dt) ^ N * Real.sqrt (vx ^ 2 + vy ^ 2) := hb
        _ < stop := by rw [mul_comm]; exact hsN
    rcases inertiaIter_dichotomy f stop dt vx vy N with hN' | hN'
    · rw [hstep, hN'] at h
      simp [inertiaStep] at h
    · rw [hstep, hN'] at h
      simp only [inertiaStep, if_true, if_pos hcond] at h
      exact Bool.noConfusion (congrArg InertiaState.active h)

/-- C7: inertial decay composes exactly — in real arithmetic, folding
the per-frame update `v *= f ^ dt` over any partition of elapsed time
into frame timesteps yields `V * f ^ (sum of the steps)` — and it
terminates: once the decayed speed falls below the stop threshold the
velocity is set exactly to zero and the inertia flag is cleared, which
happens after finitely many frames for every fixed positive timestep
(source constants: `f = 0.06`, stop threshold `8`). -/
theorem inertia_decay_exact_and_terminates :
    (∀ (f : ℝ), 0 < f → ∀ (v0 : ℝ) (dts : List ℝ), decayRun f v0 dts = v0 * f ^ dts.sum) ∧
    (∀ (f stop dt vx vy : ℝ), 0 < f → f < 1 → 0 < stop → 0 < dt →
      ∃ n, inertiaIter f stop dt n ⟨vx, vy, true⟩ = ⟨0, 0, false⟩) := by
  constructor
  · intro f hf
    have H : ∀ (dts : List ℝ) (v0 : ℝ), decayRun f v0 dts = v0 * f ^ dts.sum := by
      intro dts
      induction dts with
      | nil =>
        intro v0
        simp [decayRun, Real.rpow_zero]
      | cons dt rest ih =>
        intro v0
        show decayRun f (v0 * f ^ dt) rest = v0 * f ^ (dt :: rest).sum
        rw [ih (v0 * f ^ dt), List.sum_cons, Real.rpow_add hf, ← mul_assoc]
    exact fun v0 dts => H dts v0
  · intro f stop dt vx vy h0 h1 hstop hdt
    exact inertiaIter_terminates f stop dt vx vy h0 h1 hstop hdt

/-- Witness for C7 with the source constants `f = 0.06`, stop
threshold `8`, release velocity `(5200, 0)` and 60 fps frames. -/
theorem inertia_decay_exact_and_terminates_witness :
    (0 : ℝ) < 0.06 ∧ (0.06 : ℝ) < 1 ∧ (0 : ℝ) < 8 ∧ (0 : ℝ) < 1 / 60 ∧
    decayRun 0.06 5200 [1 / 60, 1 / 30] =
      5200 * (0.06 : ℝ) ^ (([1 / 60, 1 / 30] : List ℝ).sum) ∧
    (∃ n, inertiaIter 0.06 8 (1 / 60) n ⟨5200, 0, true⟩ = ⟨0, 0, false⟩) :=
  ⟨by norm_num, by norm_num, by norm_num, by norm_num,
    inertia_decay_exact_and_terminates.1 0.06 (by norm_num) 5200 [1 / 60, 1 / 30],
    inertia_decay_exact_and_terminates.2 0.06 8 (1 / 60) 5200 0
      (by norm_num) (by norm_num) (by norm_num) (by norm_num)⟩

end TileEngine
